import Mathlib

/-!
Verification development for the citation parser of
`obsidian-pandoc-reference-list` (files `src/parser/parser.ts` and its
consumers).  The TypeScript source is shallowly embedded: strings are
`List Char`, the character-by-character scanner `getCitationSegments`
becomes a step function over an explicit `State`/`Config` record, the
aggregator `getCitations` a fold over segments, and the crossref renderer
`renderCrossrefType` a recursion threading the `label` variable.

The scanner in the source can dereference `null` (reading
`state.shouldCancelSeek` at an `@` while `state` is `null` and `seekState`
is set), so the embedded scanner returns `Option`: `none` models the
TypeScript `TypeError` path, `some` the normal return value.
-/

namespace PandocRefList

/-- `SegmentType` from `parser.ts` (the `at` member is named `atSign` here
because `at` is a Lean keyword, and `prefix` is named `pre`). -/
inductive SegmentType where
  | atSign
  | key
  | curlyBracket
  | suppressor
  | bracket
  | pre
  | suffix
  | locatorSuffix
  | locator
  | locatorLabel
  | separator
  | litNote
  | linkSeparator
  | citeType
  | typeSeparator
deriving DecidableEq, Repr

/-- `Segment` from `parser.ts`: a typed half-open span of the input with its
text (`from` and `to` are Lean keywords, hence `from'`, `to'`). -/
structure Segment where
  type : SegmentType
  from' : Nat
  to' : Nat
  val : List Char
deriving DecidableEq, Repr

/-- The scanner-internal `State` record from `parser.ts`.  In the source
`currentSegment` starts as `null` but is always assigned before being read;
here it carries a dummy initial value instead. -/
structure State where
  inBrackets : Bool
  inExplicitKey : Bool
  inExplicitLocator : Bool
  inKey : Bool
  inLink : Bool
  inSuffix : Bool
  seekingSuffix : Bool
  seekingLocator : Bool
  encounteredKey : Bool
  shouldCancelSeek : Bool
  segment : List Segment
  currentSegment : Segment
  bracketDepth : Int
deriving DecidableEq, Repr

/-- `newState()` from `parser.ts`. -/
def newState : State where
  inBrackets := false
  inExplicitKey := false
  inExplicitLocator := false
  inKey := false
  inLink := false
  inSuffix := false
  seekingSuffix := false
  seekingLocator := false
  encounteredKey := false
  shouldCancelSeek := false
  segment := []
  currentSegment := ⟨SegmentType.bracket, 0, 0, []⟩
  bracketDepth := 0

/-- The mutable trio of `getCitationSegments`: active `state`, saved
`seekState`, and the accumulated output `segments`. -/
structure Config where
  st : Option State
  seek : Option State
  out : List (List Segment)
deriving DecidableEq, Repr

/-! ### Character classes

The source tests single characters against regexes; here each regex becomes
a `Char → Bool` predicate (for the Unicode classes `\p{L}\p{N}` and `\p{P}`
the ASCII fragment is used).  A JS test on `undefined` coerces the value to
the string `"undefined"`, which none of these classes match, so the
`Option Char` versions return `false` on `none` (except `isTerminus`, which
is true for `undefined`). -/

/-- `alphaNumeric = /[\p{L}\p{N}]/u` (ASCII fragment). -/
def alphaNumericB (c : Char) : Bool := c.isAlpha || c.isDigit

/-- `punct = /[:.#$%&\-+?<>~_/]/`. -/
def punctB (c : Char) : Bool :=
  c == ':' || c == '.' || c == '#' || c == '$' || c == '%' || c == '&' ||
  c == '-' || c == '+' || c == '?' || c == '<' || c == '>' || c == '~' ||
  c == '_' || c == '/'

/-- `nonKeyPunct = /\p{P}/u` (ASCII fragment of Unicode punctuation). -/
def nonKeyPunctB (c : Char) : Bool :=
  c == '!' || c == '"' || c == '#' || c == '%' || c == '&' || c == '\'' ||
  c == '(' || c == ')' || c == '*' || c == ',' || c == '-' || c == '.' ||
  c == '/' || c == ':' || c == ';' || c == '?' || c == '@' || c == '[' ||
  c == '\\' || c == ']' || c == '_' || c == '\x7B' || c == '\x7D'

/-- `space = /[ \t\v]/`. -/
def spaceB (c : Char) : Bool := c == ' ' || c == '\t' || c == '\x0B'

/-- `preKey = /[ \t\v[\-\r\n;|]/`. -/
def preKeyB (c : Char) : Bool :=
  c == ' ' || c == '\t' || c == '\x0B' || c == '[' || c == '-' ||
  c == '\r' || c == '\n' || c == ';' || c == '|'

/-- `postKeyPunct = /[.?,;):]/`. -/
def postKeyPunctB (c : Char) : Bool :=
  c == '.' || c == '?' || c == ',' || c == ';' || c == ')' || c == ':'

/-- `isTerminus(s)`: end of input, carriage return or newline. -/
def isTerminusOpt (o : Option Char) : Bool :=
  match o with
  | none => true
  | some c => c == '\r' || c == '\n'

/-- `isValidPreKey(s)`: start of text or a `preKey` character. -/
def isValidPreKey (o : Option Char) : Bool :=
  match o with
  | none => true
  | some c => preKeyB c

/-- `space.test(c)` where `c` may be `undefined` (then `false`). -/
def spaceOpt (o : Option Char) : Bool :=
  match o with
  | none => false
  | some c => spaceB c

/-- `punct.test(next)` where `next` may be `undefined` (then `false`). -/
def punctOpt (o : Option Char) : Bool :=
  match o with
  | none => false
  | some c => punctB c

/-- `pat` occurs as a contiguous substring of `s`. -/
def hasSub (pat s : List Char) : Bool :=
  (List.range (s.length + 1)).any (fun k => pat.isPrefixOf (s.drop k))

/-- `citeTypes = /(fig|tbl|eq|sec)/` applied to a segment value
(an unanchored regex, i.e. a substring test). -/
def containsCiteType (v : List Char) : Bool :=
  hasSub "fig".data v || hasSub "tbl".data v || hasSub "eq".data v ||
  hasSub "sec".data v

/-! ### The locator vocabulary

`parser.ts` imports `locators` and `locatorToTerm` from
`src/parser/locators.ts`, which is not among the provided sources; both are
modelled from the spec. -/

/-- Modelled from the spec: the fixed vocabulary of locator-label
abbreviations recognised by the `locators` regex of the missing
`src/parser/locators.ts` (the spec names "a fixed vocabulary of label
abbreviations" such as `p.` in `[@doe2020, p. 12]`). -/
def locatorLabels : List (List Char) :=
  ["p.", "pp.", "pg.", "page", "pages", "chap.", "chapter", "sec.",
   "section", "para.", "pt.", "vol.", "fig.", "no."].map String.data

/-- The longest vocabulary label that is a prefix of `cs` (empty list when
none is). -/
def pickLabel (cs : List Char) : List Char :=
  (locatorLabels.filter (fun l => l.isPrefixOf cs)).foldl
    (fun best l => if best.length < l.length then l else best) []

/-- The separator characters allowed before a locator label. -/
def locSepB (c : Char) : Bool := c == ' ' || c == '\t' || c == ','

/-- The whitespace allowed after a locator label. -/
def locSpB (c : Char) : Bool := c == ' ' || c == '\t'

/-- Modelled from the spec: the anchored `locators` regex of the missing
`src/parser/locators.ts`.  It captures an optional leading separator span
(spaces, tabs, commas), a locator label from the fixed vocabulary, and an
optional trailing whitespace span; no match when no label follows the
leading span. -/
def locatorsMatch (cs : List Char) :
    Option (List Char × List Char × List Char) :=
  if (pickLabel (cs.drop (cs.takeWhile locSepB).length)).isEmpty then none
  else some (cs.takeWhile locSepB,
    pickLabel (cs.drop (cs.takeWhile locSepB).length),
    ((cs.drop (cs.takeWhile locSepB).length).drop
        (pickLabel (cs.drop (cs.takeWhile locSepB).length)).length).takeWhile
      locSpB)

/-- Character class `[a-z\p{N}]` of `locatorRe` under the `i` flag
(ASCII fragment). -/
def locAlnumB (c : Char) : Bool := c.isAlpha || c.isDigit

/-- Character class `[a-z\p{N}()[\]]` of `locatorRe` under the `i` flag
(ASCII fragment). -/
def locPlainB (c : Char) : Bool :=
  c.isAlpha || c.isDigit || c == '(' || c == ')' || c == '[' || c == ']'

/-- Roman-numeral characters `[mdclxvi]` of `locatorRe`. -/
def locRomanB (c : Char) : Bool :=
  c == 'm' || c == 'd' || c == 'c' || c == 'l' || c == 'x' || c == 'v' ||
  c == 'i'

/-- One optional opening bracket `[[(]?` of `locatorRe`. -/
def locOptOpen (cs : List Char) : List Char × List Char :=
  match cs with
  | c :: rest => if c == '[' || c == '(' then ([c], rest) else ([], cs)
  | [] => ([], [])

/-- One optional closing bracket `[\])]?` of `locatorRe`. -/
def locOptClose (cs : List Char) : List Char × List Char :=
  match cs with
  | c :: rest => if c == ']' || c == ')' then ([c], rest) else ([], cs)
  | [] => ([], [])

/-- The range alternative
`[[(]?[a-z\p{N}]+[\])]?[-—:][[(]?[a-z\p{N}]+[\])]?` of `locatorRe`. -/
def locRange (cs : List Char) : Option (List Char × List Char) :=
  let o1 := (locOptOpen cs).1
  let r1 := (locOptOpen cs).2
  let a1 := r1.takeWhile locAlnumB
  if a1.isEmpty then none
  else
    let c1 := (locOptClose (r1.drop a1.length)).1
    let r2 := (locOptClose (r1.drop a1.length)).2
    match r2 with
    | d :: r3 =>
      if d == '-' || d == '—' || d == ':' then
        let o2 := (locOptOpen r3).1
        let r4 := (locOptOpen r3).2
        let a2 := r4.takeWhile locAlnumB
        if a2.isEmpty then none
        else
          let c2 := (locOptClose (r4.drop a2.length)).1
          let r5 := (locOptClose (r4.drop a2.length)).2
          some (o1 ++ a1 ++ c1 ++ [d] ++ o2 ++ a2 ++ c2, r5)
      else none
    | [] => none

/-- The plain alternative `[a-z\p{N}()[\]]*\p{N}+[a-z\p{N}()[\]]*` of
`locatorRe`, executed greedily: the longest `locPlainB` run, accepted when
it contains a digit. -/
def locPlain (cs : List Char) : Option (List Char × List Char) :=
  let m := cs.takeWhile locPlainB
  if m.isEmpty || !(m.any Char.isDigit) then none
  else some (m, cs.drop m.length)

/-- The roman-numeral alternative `[mdclxvi]+` of `locatorRe`. -/
def locRoman (cs : List Char) : Option (List Char × List Char) :=
  let m := cs.takeWhile locRomanB
  if m.isEmpty then none else some (m, cs.drop m.length)

/-- One item of `locatorRe`'s comma-separated list, trying the three
alternatives in the source's order. -/
def locItem (cs : List Char) : Option (List Char × List Char) :=
  match locRange cs with
  | some r => some r
  | none =>
    match locPlain cs with
    | some r => some r
    | none => locRoman cs

/-- The `(?:[ \t]*,[ \t]*item)*` tail of `locatorRe`, with fuel for
termination. -/
def locListGo (fuel : Nat) (acc rest : List Char) : List Char :=
  match fuel with
  | 0 => acc
  | fuel + 1 =>
    match rest.drop (rest.takeWhile locSpB).length with
    | ',' :: r1 =>
      match locItem (r1.drop (r1.takeWhile locSpB).length) with
      | some p =>
        locListGo fuel
          (acc ++ rest.takeWhile locSpB ++ [','] ++ r1.takeWhile locSpB ++ p.1)
          p.2
      | none => acc
    | _ => acc

/-- `locatorRe` from `parser.ts` as an executable matcher: an anchored
comma-separated list of range / plain / roman items; `match[0] = match[1]`
is the matched prefix. -/
def locatorReMatch (cs : List Char) : Option (List Char) :=
  match locItem cs with
  | some p => some (locListGo p.2.length p.1 p.2)
  | none => none

/-! ### The locator parsers and `endCurrent` -/

/-- Lay out typed chunks end to end starting at offset `f`, mirroring the
`index` arithmetic of `parsePossibleLocator` / `parseExplicitLocator`. -/
def mkChunkSegs (f : Nat) : List (SegmentType × List Char) → List Segment
  | [] => []
  | (ty, v) :: rest => ⟨ty, f, f + v.length, v⟩ :: mkChunkSegs (f + v.length) rest

/-- `parsePossibleLocator` from `parser.ts`: split a `suffix` value into
locator-suffix / label / locator-suffix / locator / suffix chunks; empty
list when the label or the locator fails to match. -/
def parsePossibleLocator (cur : Segment) : List Segment :=
  match locatorsMatch cur.val with
  | none => []
  | some (sp0, lab, sp1) =>
    let sliced := cur.val.drop (sp0.length + lab.length + sp1.length)
    match locatorReMatch sliced with
    | none => []
    | some loc =>
      let suffix := sliced.drop loc.length
      mkChunkSegs cur.from'
        (([(SegmentType.locatorSuffix, sp0), (SegmentType.locatorLabel, lab),
           (SegmentType.locatorSuffix, sp1), (SegmentType.locator, loc),
           (SegmentType.suffix, suffix)]).filter (fun p => !p.2.isEmpty))

/-- `parseExplicitLocator` from `parser.ts`: like `parsePossibleLocator` but
the whole remainder after the label is the locator; when the label regex
fails the current segment is retyped to `locator` (second component). -/
def parseExplicitLocator (cur : Segment) : List Segment × Segment :=
  match locatorsMatch cur.val with
  | none => ([], { cur with type := SegmentType.locator })
  | some (sp0, lab, sp1) =>
    let sliced := cur.val.drop (sp0.length + lab.length + sp1.length)
    if sliced.isEmpty then ([], cur)
    else
      (mkChunkSegs cur.from'
        (([(SegmentType.locatorSuffix, sp0), (SegmentType.locatorLabel, lab),
           (SegmentType.locatorSuffix, sp1),
           (SegmentType.locator, sliced)]).filter (fun p => !p.2.isEmpty)),
       cur)

/-- `endCurrent(i)` from `getCitationSegments`: close the segment being
accumulated at offset `i` and push it (or, while seeking a locator, the
segments the locator parsers produced).  `seekLoc` is
`seekState?.seekingLocator` at the call site. -/
def endCurrent (seekLoc : Bool) (i : Nat) (s : State) : State :=
  let push (s : State) : State :=
    let cur := { s.currentSegment with to' := i }
    { s with currentSegment := cur, segment := s.segment ++ [cur] }
  if s.seekingLocator || seekLoc then
    if s.currentSegment.type == SegmentType.suffix then
      let segs := parsePossibleLocator s.currentSegment
      if segs.isEmpty then push s
      else { s with segment := s.segment ++ segs, seekingLocator := false }
    else if s.currentSegment.type == SegmentType.locatorSuffix then
      let (segs, cur') := parseExplicitLocator s.currentSegment
      if segs.isEmpty then push { s with currentSegment := cur' }
      else { s with segment := s.segment ++ segs, seekingLocator := false }
    else push s
  else push s

/-- `newCurrent(i, c, type)` from `getCitationSegments`. -/
def newCurrent (i : Nat) (c : Char) (ty : SegmentType) : Segment :=
  ⟨ty, i, i + 1, [c]⟩

/-- `endSegment()`'s effect on the output list: the group is emitted only
when a key was encountered. -/
def endSegmentOut (s : State) (out : List (List Segment)) :
    List (List Segment) :=
  if s.encounteredKey then out ++ [s.segment] else out

/-- `seekState?.seekingLocator` at an `endCurrent` call site. -/
def seekLocOf (seek : Option State) : Bool :=
  match seek with
  | none => false
  | some ss => ss.seekingLocator

/-- The `@`-branch of the loop (lines 864–880): end the current segment when
inside brackets, or start a fresh state, then open an `at` segment. -/
def atOpen (i : Nat) (cfg : Config) : Config :=
  let s' : State :=
    match cfg.st with
    | some s => if s.inBrackets then endCurrent (seekLocOf cfg.seek) i s else newState
    | none => newState
  { cfg with
    st := some { s' with
      currentSegment := newCurrent i '@' SegmentType.atSign
      inKey := true
      encounteredKey := true } }

/-- Lines 1070–1166 of the loop: the in-bracket branches from the `;`
check onward (separator, suppressor and literature-note lookahead, braces,
prefix/suffix starts, and the catch-all accumulation), shared by the plain
path and the nested-`]` fall-through. -/
def block5Tail (prev next : Option Char) (i : Nat)
    (seek : Option State) (out : List (List Segment)) (s : State)
    (ch : Char) : Config :=
  if ch == ';' then
    ⟨some { endCurrent (seekLocOf seek) i s with
        shouldCancelSeek := false
        currentSegment := newCurrent i ch SegmentType.separator },
     seek, out⟩
  else if ch == '-' && next == some '@' then
    ⟨some { endCurrent (seekLocOf seek) i s with
        shouldCancelSeek := false
        currentSegment := newCurrent i ch SegmentType.suppressor },
     seek, out⟩
  else if ch == '|' && next == some '@' then
    ⟨some { endCurrent (seekLocOf seek) i
        { s with currentSegment :=
          { s.currentSegment with type := SegmentType.litNote } } with
        shouldCancelSeek := false
        currentSegment := newCurrent i ch SegmentType.linkSeparator },
     seek, out⟩
  else if ch == '\x7B' then
    if seekLocOf seek then
      ⟨some { endCurrent (seekLocOf seek) i s with
          currentSegment := newCurrent i ch SegmentType.curlyBracket
          inExplicitLocator := true }, seek, out⟩
    else
      ⟨some { endCurrent (seekLocOf seek) i s with
          currentSegment := newCurrent i ch SegmentType.curlyBracket },
       seek, out⟩
  else if ch == '\x7D' then
    if s.inExplicitLocator && s.currentSegment.type == SegmentType.suffix then
      ⟨some { endCurrent (seekLocOf seek) i
          { s with
            currentSegment :=
              { s.currentSegment with type := SegmentType.locatorSuffix }
            seekingLocator := false } with
          currentSegment := newCurrent i ch SegmentType.curlyBracket },
       seek, out⟩
    else
      ⟨some { endCurrent (seekLocOf seek) i s with
          currentSegment := newCurrent i ch SegmentType.curlyBracket },
       seek, out⟩
  else if prev == some '\x7B' then
    if s.seekingLocator && s.encounteredKey then
      ⟨some { endCurrent (seekLocOf seek) i s with
          currentSegment := newCurrent i ch SegmentType.locatorSuffix
          inSuffix := true }, seek, out⟩
    else
      ⟨some { endCurrent (seekLocOf seek) i s with
          currentSegment := newCurrent i ch SegmentType.suffix
          inSuffix := true }, seek, out⟩
  else if prev == some '\x7D' || prev == some '\x7B' then
    ⟨some { endCurrent (seekLocOf seek) i s with
        currentSegment := newCurrent i ch SegmentType.suffix
        inSuffix := true }, seek, out⟩
  else if seek.isSome && prev == some ';' then
    ⟨some { endCurrent (seekLocOf seek) i s with
        currentSegment := newCurrent i ch SegmentType.pre
        inSuffix := false }, seek, out⟩
  else if seek.isSome && prev == some '[' && s.bracketDepth == 1 then
    ⟨some { endCurrent (seekLocOf seek) i s with
        currentSegment := newCurrent i ch SegmentType.suffix
        inSuffix := true }, seek, out⟩
  else if !seek.isSome && (prev == some '[' || prev == some ';') then
    ⟨some { endCurrent (seekLocOf seek) i s with
        currentSegment := newCurrent i ch SegmentType.pre }, seek, out⟩
  else if s.inKey then
    ⟨some { endCurrent (seekLocOf seek) i s with
        currentSegment := newCurrent i ch SegmentType.suffix
        inSuffix := true
        inKey := false
        seekingLocator := true },
     seek, out⟩
  else
    ⟨some { s with currentSegment :=
        { s.currentSegment with val := s.currentSegment.val ++ [ch] } },
     seek, out⟩

/-- Lines 1038–1166 of the loop: the in-bracket block (terminus, closing
bracket at depth zero with the `ignoreLinks` discard and the `seekState`
merge), deferring the rest to `block5Tail`. -/
def block5 (prev c next : Option Char) (ig : Bool) (i : Nat)
    (seek : Option State) (out : List (List Segment)) (s : State) : Config :=
  if isTerminusOpt c then ⟨none, seek, out⟩
  else
    match c with
    | none => ⟨none, seek, out⟩
    | some ch =>
      let s := if ch == ']' then { s with bracketDepth := s.bracketDepth - 1 } else s
      if ch == ']' && s.bracketDepth == 0 then
        if ig && (s.inLink || next == some '(') then ⟨none, none, out⟩
        else
          let s1 := endCurrent (seekLocOf seek) i s
          let s2 := { s1 with
            segment := s1.segment ++ [newCurrent i ch SegmentType.bracket] }
          match seek with
          | none => ⟨none, seek, endSegmentOut s2 out⟩
          | some ss => ⟨none, none, out ++ [ss.segment ++ s2.segment]⟩
      else block5Tail prev next i seek out s ch

/-- Lines 887–1036 of the loop: the in-key block (terminus, the character
after `@`/`:`, explicit keys, braces, key accumulation, whitespace,
punctuation with its lookaheads, and the bare-citation aborts); falls
through to `block5` for an in-bracket character none of its cases claim. -/
def block4 (prev c next : Option Char) (ig : Bool) (i : Nat)
    (seek : Option State) (out : List (List Segment)) (s : State) : Config :=
  let sl := seekLocOf seek
  if isTerminusOpt c then
    if !s.inBrackets then ⟨none, seek, endSegmentOut (endCurrent sl i s) out⟩
    else ⟨none, seek, out⟩
  else
    match c with
    | none => ⟨none, seek, out⟩
    | some ch =>
      if prev == some '@' || prev == some ':' then
        if alphaNumericB ch || ch == '_' then
          ⟨some { endCurrent sl i s with
              currentSegment := newCurrent i ch SegmentType.key }, seek, out⟩
        else if ch == '\x7B' then
          ⟨some { endCurrent sl i s with
              currentSegment := newCurrent i ch SegmentType.curlyBracket
              inExplicitKey := true }, seek, out⟩
        else ⟨none, seek, out⟩
      else if s.inExplicitKey && ch != '\x7D' then
        if s.currentSegment.type != SegmentType.key then
          ⟨some { endCurrent sl i s with
              currentSegment := newCurrent i ch SegmentType.key }, seek, out⟩
        else
          ⟨some { s with currentSegment :=
              { s.currentSegment with val := s.currentSegment.val ++ [ch] } },
           seek, out⟩
      else if ch == '\x7D' then
        let s1 := { endCurrent sl i s with
          inKey := false
          inExplicitKey := true
          seekingLocator := true }
        if !s.inBrackets then
          ⟨some { s1 with
              segment := s1.segment ++ [newCurrent i ch SegmentType.curlyBracket]
              seekingSuffix := true
              shouldCancelSeek := true }, seek, out⟩
        else
          ⟨some { s1 with
              currentSegment := newCurrent i ch SegmentType.curlyBracket
              inSuffix := true }, seek, out⟩
      else if ch == '\x7B' then
        ⟨some { endCurrent sl i s with
            currentSegment := newCurrent i ch SegmentType.curlyBracket
            inKey := false
            inSuffix := true
            seekingLocator := true
            inExplicitLocator := true }, seek, out⟩
      else if alphaNumericB ch then
        ⟨some { s with currentSegment :=
            { s.currentSegment with val := s.currentSegment.val ++ [ch] } },
         seek, out⟩
      else if spaceB ch then
        let s1 := { endCurrent sl i s with inKey := false, seekingLocator := true }
        if !s.inBrackets then
          ⟨some { s1 with seekingSuffix := true, shouldCancelSeek := true },
           seek, out⟩
        else
          ⟨some { s1 with
              currentSegment := newCurrent i ch SegmentType.suffix
              inSuffix := true }, seek, out⟩
      else if punctB ch then
        if isTerminusOpt next then
          if !s.inBrackets then ⟨none, seek, endSegmentOut (endCurrent sl i s) out⟩
          else ⟨none, seek, out⟩
        else if containsCiteType s.currentSegment.val then
          let s0 := { s with currentSegment :=
            { s.currentSegment with type := SegmentType.citeType } }
          ⟨some { endCurrent sl i s0 with
              currentSegment := newCurrent i ch SegmentType.typeSeparator },
           seek, out⟩
        else if punctOpt next then
          let s1 := { endCurrent sl i s with inKey := false }
          if !s.inBrackets then ⟨none, seek, endSegmentOut s1 out⟩
          else
            ⟨some { s1 with
                currentSegment := newCurrent i ch SegmentType.suffix
                inSuffix := true
                seekingLocator := true }, seek, out⟩
        else if spaceOpt next then
          if !s.inBrackets && postKeyPunctB ch then
            ⟨none, seek, endSegmentOut (endCurrent sl i s) out⟩
          else if !s.inBrackets then
            ⟨none, seek, endSegmentOut s out⟩
          else
            ⟨some { endCurrent sl i s with
                inKey := false
                currentSegment := newCurrent i ch SegmentType.suffix
                inSuffix := true
                seekingLocator := true }, seek, out⟩
        else
          ⟨some { s with currentSegment :=
              { s.currentSegment with val := s.currentSegment.val ++ [ch] } },
           seek, out⟩
      else if !s.inBrackets then
        if nonKeyPunctB ch then ⟨none, seek, endSegmentOut (endCurrent sl i s) out⟩
        else ⟨none, seek, out⟩
      else
        block5 prev c next ig i seek out s

/-- Lines 864–1170 of the loop: everything after the `[`-handling — the `@`
branch (including the source's `state.shouldCancelSeek` read that throws a
`TypeError` when `state` is `null` while `seekState` is set, modelled as
`none`), the seeking-suffix abort, and dispatch into the in-key and
in-bracket blocks. -/
def stepMain (prev c next : Option Char) (ig : Bool) (i : Nat)
    (cfg : Config) : Option Config :=
  if c == some '@' && isValidPreKey prev then
    match cfg.seek with
    | some ss =>
      match cfg.st with
      | none => none
      | some s =>
        let cfg1 : Config :=
          if s.shouldCancelSeek then ⟨cfg.st, none, cfg.out ++ [ss.segment]⟩
          else cfg
        some (atOpen i cfg1)
    | none => some (atOpen i cfg)
  else
    match cfg.st with
    | none => some cfg
    | some s =>
      if s.seekingSuffix && !spaceOpt c then
        some ⟨none, cfg.seek, endSegmentOut s cfg.out⟩
      else if s.inKey then some (block4 prev c next ig i cfg.seek cfg.out s)
      else if s.inBrackets then some (block5 prev c next ig i cfg.seek cfg.out s)
      else if !s.seekingSuffix then some ⟨none, cfg.seek, cfg.out⟩
      else some cfg

/-- One iteration of the scanner loop at index `i`: the `[`-handling of
lines 848–861 (wiki-link skip, depth increment, bracket-context open with
the possible `seekState` hand-off, or fall-through for nested `[`), then
`stepMain`. -/
def step (t : List Char) (ig : Bool) (i : Nat) (cfg : Config) : Option Config :=
  let prev : Option Char := if i == 0 then none else t[i - 1]?
  let c : Option Char := t[i]?
  let next : Option Char := t[i + 1]?
  if c == some '[' then
    if next == some '[' && cfg.st.isNone then some cfg
    else
      match cfg.st with
      | none =>
        some ⟨some { newState with
            bracketDepth := 1
            currentSegment := newCurrent i '[' SegmentType.bracket
            inBrackets := true
            inLink := prev == some '[' }, cfg.seek, cfg.out⟩
      | some s0 =>
        let s1 := { s0 with bracketDepth := s0.bracketDepth + 1 }
        if s1.bracketDepth == 1 then
          let seek' := if s1.seekingSuffix then some s1 else cfg.seek
          some ⟨some { newState with
              bracketDepth := 1
              currentSegment := newCurrent i '[' SegmentType.bracket
              inBrackets := true
              inLink := prev == some '[' }, seek', cfg.out⟩
        else stepMain prev c next ig i ⟨some s1, cfg.seek, cfg.out⟩
  else stepMain prev c next ig i cfg

/-- Run `step` over a list of indices, propagating the `TypeError` path. -/
def scanLoop (t : List Char) (ig : Bool) : List Nat → Config → Option Config
  | [], cfg => some cfg
  | i :: rest, cfg =>
    match step t ig i cfg with
    | none => none
    | some cfg' => scanLoop t ig rest cfg'

/-- The post-loop flush of lines 1173–1175: a still-seeking bare state's
segments are pushed. -/
def finishConfig (cfg : Config) : List (List Segment) :=
  match cfg.st with
  | some s => if s.seekingSuffix then cfg.out ++ [s.segment] else cfg.out
  | none => cfg.out

/-- `getCitationSegments(str, ignoreLinks)` from `parser.ts`: scan positions
`0 … str.length` (the loop bound is `str.length + 1`) and flush.  `none`
models the source's reachable `TypeError` (see `stepMain`). -/
def getCitationSegments (str : List Char) (ignoreLinks : Bool := false) :
    Option (List (List Segment)) :=
  (scanLoop str ignoreLinks (List.range (str.length + 1)) ⟨none, none, []⟩).map
    finishConfig

/-! ### The citation aggregator `getCitations` -/

/-- `Citation` from `parser.ts`; absent (JS `undefined` / unset) fields are
`none`, and the reserved words `prefix` and `infix` become `pre` and `inf`
(`suf` matches).  The flags model the presence of the source's `composite`,
`suppress-author` and `author-only` properties. -/
structure Citation where
  id : Option (List Char) := none
  pre : Option (List Char) := none
  suf : Option (List Char) := none
  inf : Option (List Char) := none
  locator : Option (List Char) := none
  label : Option (List Char) := none
  litNote : Option (List Char) := none
  citeType : Option (List Char) := none
  suppressAuthor : Bool := false
  authorOnly : Bool := false
  composite : Bool := false
deriving DecidableEq, Repr

/-- `CitationGroup` from `parser.ts`. -/
structure CitationGroup where
  data : List Segment
  citations : List Citation
  from' : Nat
  to' : Nat
deriving DecidableEq, Repr

/-- `RenderedCitation` from `parser.ts` (the optional `noteIndex`/`note`
literature-note metadata is not produced by `renderCrossrefType` and is
omitted). -/
structure RenderedCitation where
  data : List Segment
  citations : List Citation
  from' : Nat
  to' : Nat
  val : List Char
deriving DecidableEq, Repr

/-- Modelled from the spec: the `locatorToTerm` table of the missing
`src/parser/locators.ts`, a `locale → label → display term` lookup
(`[@doe2020, p. 12]` resolves `p.` to the page term under `en-US`); `none`
when the locale or the label has no entry. -/
def locatorToTerm (locale : List Char) (label : List Char) :
    Option (List Char) :=
  if locale == "en-US".data then
    if label == "p.".data || label == "pp.".data || label == "pg.".data ||
       label == "page".data || label == "pages".data then some "page".data
    else if label == "chap.".data || label == "chapter".data then
      some "chapter".data
    else if label == "sec.".data || label == "section".data then
      some "section".data
    else if label == "para.".data then some "paragraph".data
    else if label == "pt.".data then some "part".data
    else if label == "vol.".data then some "volume".data
    else if label == "fig.".data then some "figure".data
    else if label == "no.".data then some "number".data
    else none
  else none

/-- JS `String.prototype.trim` (ASCII whitespace fragment). -/
def trimJS (v : List Char) : List Char :=
  let ws : Char → Bool := fun c =>
    c == ' ' || c == '\t' || c == '\n' || c == '\r' || c == '\x0B' || c == '\x0C'
  ((v.dropWhile ws).reverse.dropWhile ws).reverse

/-- The per-citation accumulator variables of `getCitations`. -/
structure CiteAcc where
  key : Option (List Char) := none
  pre : Option (List Char) := none
  suf : Option (List Char) := none
  inf : Option (List Char) := none
  locator : Option (List Char) := none
  label : Option (List Char) := none
  litNote : Option (List Char) := none
  citeType : Option (List Char) := none
  suppressAuthor : Bool := false
  onlyAuthor : Bool := false
  composite : Bool := false
deriving DecidableEq, Repr

/-- The `push()` closure of `getCitations`: build a `Citation` from the
accumulator (trimming and dropping falsy fields, resolving the locator
label through `locatorToTerm`, and setting at most one of the three flags
by the `if / else if / else if` chain). -/
def pushCite (locale : List Char) (a : CiteAcc) : Citation :=
  let trimmed : Option (List Char) → Option (List Char) := fun o =>
    match o with
    | none => none
    | some v => let tv := trimJS v; if tv.isEmpty then none else some tv
  { id := a.key
    pre := trimmed a.pre
    suf := trimmed a.suf
    inf := trimmed a.inf
    litNote := trimmed a.litNote
    citeType := trimmed a.citeType
    locator :=
      match a.locator with
      | none => none
      | some v => if v.isEmpty then none else some v
    label :=
      match a.label with
      | none => none
      | some l =>
        if l.isEmpty then none
        else
          match locatorToTerm locale l with
          | none => none
          | some term => if term.isEmpty then none else some term
    composite := a.composite
    suppressAuthor := !a.composite && a.suppressAuthor
    authorOnly := !a.composite && !a.suppressAuthor && a.onlyAuthor }

/-- The flag reset done inside `push()` after the citation is built. -/
def resetFlags (a : CiteAcc) : CiteAcc :=
  { a with composite := false, onlyAuthor := false, suppressAuthor := false }

/-- The `for` loop of `getCitations` (index `i` drives the `i === 0` check
of the `at` case). -/
def citeFold (locale : List Char) : List Segment → Nat → CiteAcc →
    List Citation → List Citation
  | [], _, a, cs => cs ++ [pushCite locale a]
  | seg :: rest, i, a, cs =>
    match seg.type with
    | SegmentType.atSign =>
      citeFold locale rest (i + 1)
        (if i == 0 then { a with composite := true } else a) cs
    | SegmentType.suppressor =>
      if a.composite then
        let aPush := { a with
          suf := none, locator := none, label := none,
          composite := false, onlyAuthor := true }
        citeFold locale rest (i + 1)
          { resetFlags aPush with suppressAuthor := true }
          (cs ++ [pushCite locale aPush])
      else
        citeFold locale rest (i + 1) { a with suppressAuthor := true } cs
    | SegmentType.separator =>
      citeFold locale rest (i + 1)
        { key := a.key, citeType := a.citeType }
        (cs ++ [pushCite locale a])
    | SegmentType.key =>
      citeFold locale rest (i + 1) { a with key := some seg.val } cs
    | SegmentType.pre =>
      citeFold locale rest (i + 1) { a with pre := some seg.val } cs
    | SegmentType.suffix =>
      citeFold locale rest (i + 1) { a with suf := some seg.val } cs
    | SegmentType.locator =>
      citeFold locale rest (i + 1) { a with locator := some seg.val } cs
    | SegmentType.locatorLabel =>
      citeFold locale rest (i + 1) { a with label := some seg.val } cs
    | SegmentType.litNote =>
      citeFold locale rest (i + 1)
        { a with litNote := some seg.val, composite := true } cs
    | SegmentType.citeType =>
      citeFold locale rest (i + 1) { a with citeType := some seg.val } cs
    | _ => citeFold locale rest (i + 1) a cs

/-- `getCitations(segments, locale)` from `parser.ts`: fold the segment
list into citation records and attach the group span (the source indexes
`segments[0]` / `segments[segments.length - 1]`; on an empty list that is a
JS `undefined` access, and the span defaults to `0` here — the claims only
use non-empty lists). -/
def getCitations (segments : List Segment)
    (locale : List Char := "en-US".data) : CitationGroup :=
  { data := segments
    citations := citeFold locale segments 0 {} []
    from' := (segments.head?.map Segment.from').getD 0
    to' := ((segments.getLast?).map Segment.to').getD 0 }

/-! ### The crossref renderer `renderCrossrefType` -/

/-- `citeTypes.test(c.citeType)` from `renderCrossrefType`: the unanchored
`/(fig|tbl|eq|sec)/` substring test; a JS `undefined` citeType coerces to
`"undefined"`, which contains none of the alternatives, hence `false`. -/
def citeTypeTest (o : Option (List Char)) : Bool :=
  match o with
  | none => false
  | some s => containsCiteType s

/-- The `switch` of `renderCrossrefType` on the first citation's exact
`citeType`, selecting the plural label for more than one citation: `none`
when no case matches (the source then keeps the previous `label`). -/
def crossrefLabelOf (ct : Option (List Char)) (n : Nat) :
    Option (List Char) :=
  match ct with
  | none => none
  | some v =>
    if v == "fig".data then
      some (if 1 < n then "Figures ".data else "Figure ".data)
    else if v == "eq".data then
      some (if 1 < n then "Equations ".data else "Equation ".data)
    else if v == "tbl".data then
      some (if 1 < n then "Tables ".data else "Table ".data)
    else if v == "sec".data then
      some (if 1 < n then "Sections ".data else "Section ".data)
    else none

/-- `citations.map((c) => c.id).join(', ')`: a JS `undefined` id joins as
the empty string. -/
def joinIds : List Citation → List Char
  | [] => []
  | [c] => c.id.getD []
  | c :: rest => c.id.getD [] ++ ", ".data ++ joinIds rest

/-- The `for` loop of `renderCrossrefType`, threading the `label` variable
declared outside the loop (stale between iterations; `undefined` coerces to
the string `"undefined"` in the concatenation). -/
def renderCrossrefGo (label : Option (List Char)) :
    List CitationGroup → List RenderedCitation
  | [] => []
  | g :: rest =>
    let label1 :=
      match g.citations.head? with
      | none => label
      | some c0 =>
        match crossrefLabelOf c0.citeType g.citations.length with
        | some l => some l
        | none => label
    let val :=
      "[".data ++ label1.getD "undefined".data ++ joinIds g.citations ++
      "]".data
    ⟨g.data, g.citations, g.from', g.to', val⟩ :: renderCrossrefGo label1 rest

/-- `renderCrossrefType(group)` from `parser.ts`: filter the groups whose
citation list has *some* member passing the `citeTypes` substring test,
then build one `RenderedCitation` per kept group. -/
def renderCrossrefType (group : List CitationGroup) : List RenderedCitation :=
  renderCrossrefGo none
    (group.filter (fun g => g.citations.any (fun c => citeTypeTest c.citeType)))

/-! ### Spans, chains and well-formedness predicates -/

/-- The substring `t[a:b]` as a list of characters. -/
def slice (t : List Char) (a b : Nat) : List Char := (t.drop a).take (b - a)

/-- A single well-formed segment over `t`: non-empty span whose `val` is
exactly the spanned substring. -/
def SegWF (t : List Char) (s : Segment) : Prop :=
  s.from' < s.to' ∧ s.val = slice t s.from' s.to'

/-- All segments well-formed and ending at or before offset `i`. -/
def SegsWF (t : List Char) (i : Nat) (l : List Segment) : Prop :=
  ∀ s ∈ l, SegWF t s ∧ s.to' ≤ i

/-- Segments in order: each starts at or after `lo`, and at or after the
previous one's end (sorted and pairwise non-overlapping). -/
def Chained : Nat → List Segment → Prop
  | _, [] => True
  | lo, s :: rest => lo ≤ s.from' ∧ Chained s.to' rest

/-- The `to'` of the last segment (`d` for the empty list). -/
def lastTo (d : Nat) : List Segment → Nat
  | [] => d
  | s :: rest => lastTo s.to' rest

/-- The `from'` of the first segment (`d` for the empty list). -/
def firstFrom (d : Nat) : List Segment → Nat
  | [] => d
  | s :: _ => s.from'

/-- The group contains an `at` segment. -/
def containsAt (l : List Segment) : Prop :=
  ∃ s ∈ l, s.type = SegmentType.atSign

/-- Consecutive groups in order: each group starts at or after the previous
group's end. -/
def GroupsChained : Nat → List (List Segment) → Prop
  | _, [] => True
  | lo, g :: gs => lo ≤ firstFrom lo g ∧ GroupsChained (lastTo lo g) gs

/-- The end of the last group (`d` when there is none). -/
def outHi (d : Nat) : List (List Segment) → Nat
  | [] => d
  | g :: gs => outHi (lastTo d g) gs

/-- The start offset of the group an active state is building. -/
def stLo (s : State) : Nat := firstFrom s.currentSegment.from' s.segment

/-! ### Basic lemmas about the span predicates -/

theorem SegsWF_mono {t : List Char} {i j : Nat} {l : List Segment}
    (h : SegsWF t i l) (hij : i ≤ j) : SegsWF t j l := by
  intro s hs
  exact ⟨(h s hs).1, le_trans (h s hs).2 hij⟩

theorem SegsWF_nil {t : List Char} {i : Nat} : SegsWF t i [] := by
  intro s hs
  cases hs

theorem SegsWF_append {t : List Char} {i : Nat} {l₁ l₂ : List Segment}
    (h₁ : SegsWF t i l₁) (h₂ : SegsWF t i l₂) : SegsWF t i (l₁ ++ l₂) := by
  intro s hs
  rcases List.mem_append.mp hs with h | h
  · exact h₁ s h
  · exact h₂ s h

theorem Chained_anti {l : List Segment} :
    ∀ {a b : Nat}, Chained a l → b ≤ a → Chained b l := by
  induction l with
  | nil => intro a b _ _; trivial
  | cons s rest _ =>
    intro a b h hba
    exact ⟨le_trans hba h.1, h.2⟩

theorem lastTo_append (d : Nat) (l₁ l₂ : List Segment) :
    lastTo d (l₁ ++ l₂) = lastTo (lastTo d l₁) l₂ := by
  induction l₁ generalizing d with
  | nil => rfl
  | cons s rest ih => simpa [lastTo] using ih s.to'

theorem Chained_append {l₁ l₂ : List Segment} :
    ∀ {lo : Nat}, Chained lo l₁ → Chained (lastTo lo l₁) l₂ →
      Chained lo (l₁ ++ l₂) := by
  induction l₁ with
  | nil => intro lo _ h₂; simpa [lastTo] using h₂
  | cons s rest ih =>
    intro lo h₁ h₂
    exact ⟨h₁.1, ih h₁.2 h₂⟩

theorem lastTo_le {t : List Char} {i : Nat} {l : List Segment}
    (h : SegsWF t i l) : ∀ {d : Nat}, d ≤ i → lastTo d l ≤ i := by
  induction l with
  | nil => intro d hd; exact hd
  | cons s rest ih =>
    intro d _
    exact ih (fun x hx => h x (List.mem_cons_of_mem s hx)) (h s (List.mem_cons_self s rest)).2

theorem firstFrom_eq_of_ne_nil {l : List Segment} (h : l ≠ []) (d d' : Nat) :
    firstFrom d l = firstFrom d' l := by
  cases l with
  | nil => exact absurd rfl h
  | cons s rest => rfl

theorem firstFrom_append_of_ne_nil {l₁ l₂ : List Segment} (h : l₁ ≠ [])
    (d : Nat) : firstFrom d (l₁ ++ l₂) = firstFrom d l₁ := by
  cases l₁ with
  | nil => exact absurd rfl h
  | cons s rest => rfl

theorem containsAt_append_left {l₁ l₂ : List Segment} (h : containsAt l₁) :
    containsAt (l₁ ++ l₂) := by
  rcases h with ⟨s, hs, ht⟩
  exact ⟨s, List.mem_append_left _ hs, ht⟩

theorem containsAt_append_right {l₁ l₂ : List Segment} (h : containsAt l₂) :
    containsAt (l₁ ++ l₂) := by
  rcases h with ⟨s, hs, ht⟩
  exact ⟨s, List.mem_append_right _ hs, ht⟩

theorem containsAt_ne_nil {l : List Segment} (h : containsAt l) : l ≠ [] := by
  rcases h with ⟨s, hs, _⟩
  intro hnil
  rw [hnil] at hs
  cases hs

theorem Chained_of_le_firstFrom {l : List Segment} {d : Nat}
    (h : Chained 0 l) (hd : ∀ d', d ≤ firstFrom d' l) : Chained d l := by
  cases l with
  | nil => trivial
  | cons s rest => exact ⟨hd 0, h.2⟩

theorem GroupsChained_append {out : List (List Segment)} {g : List Segment} :
    ∀ {lo : Nat}, GroupsChained lo out →
      (∀ d, outHi lo out ≤ firstFrom d g) →
      GroupsChained lo (out ++ [g]) := by
  induction out with
  | nil =>
    intro lo _ hg
    exact ⟨hg lo, trivial⟩
  | cons g₀ gs ih =>
    intro lo h hg
    exact ⟨h.1, ih h.2 hg⟩

theorem outHi_append (lo : Nat) (out : List (List Segment)) (g : List Segment) :
    outHi lo (out ++ [g]) = lastTo (outHi lo out) g := by
  induction out generalizing lo with
  | nil => rfl
  | cons g₀ gs ih => simpa [outHi] using ih (lastTo lo g₀)

theorem outHi_le {t : List Char} {i : Nat} {out : List (List Segment)}
    (h : ∀ g ∈ out, SegsWF t i g) : ∀ {d : Nat}, d ≤ i → outHi d out ≤ i := by
  induction out with
  | nil => intro d hd; exact hd
  | cons g gs ih =>
    intro d hd
    exact ih (fun x hx => h x (List.mem_cons_of_mem g hx))
      (lastTo_le (h g (List.mem_cons_self g gs)) hd)

/-! ### Lemmas about `slice` -/

theorem slice_one (t : List Char) (a : Nat) (ch : Char) :
    slice t a (a + 1) = [ch] ↔ t[a]? = some ch := by
  have h0 : t[a]? = (t.drop a)[0]? := by
    simp [List.getElem?_drop]
  unfold slice
  rw [Nat.add_sub_cancel_left]
  cases h : t.drop a with
  | nil => simp [h0, h]
  | cons c r => simp [h0, h]

theorem slice_snoc {t : List Char} {i : Nat} {ch : Char} (h : t[i]? = some ch)
    {a : Nat} (ha : a ≤ i) : slice t a i ++ [ch] = slice t a (i + 1) := by
  have h1 : i + 1 - a = (i - a) + 1 := by omega
  have h2 : (t.drop a)[i - a]? = some ch := by
    rw [List.getElem?_drop]
    rwa [Nat.add_sub_cancel' ha]
  unfold slice
  rw [h1, List.take_succ, h2]
  rfl

theorem slice_drop {t v : List Char} {f i : Nat} (hv : v = slice t f i)
    (a : Nat) : v.drop a = slice t (f + a) i := by
  subst hv
  unfold slice
  rw [List.drop_take, List.drop_drop, Nat.sub_sub]

theorem slice_take_of_le {t v : List Char} {f i : Nat} (hv : v = slice t f i)
    (hlen : f + v.length = i) {b : Nat} (hb : b ≤ v.length) :
    v.take b = slice t f (f + b) := by
  have hvl : v.length = i - f := by omega
  subst hv
  unfold slice
  rw [List.take_take, Nat.add_sub_cancel_left]
  congr 1
  omega

theorem at_prev {t : List Char} {i : Nat} {sg : Segment}
    (hval : sg.val = ['@']) (hlen : sg.from' + sg.val.length = i)
    (hslice : sg.val = slice t sg.from' i) :
    1 ≤ i ∧ t[i - 1]? = some '@' := by
  have hf : sg.from' + 1 = i := by
    rw [hval] at hlen
    simpa using hlen
  have h1 : 1 ≤ i := by omega
  have hf' : sg.from' = i - 1 := by omega
  have hs : slice t sg.from' (sg.from' + 1) = ['@'] := by
    rw [hf, ← hslice, hval]
  rw [hf'] at hs
  exact ⟨h1, (slice_one t (i - 1) '@').mp hs⟩

/-! ### Structural lemmas about the locator matchers -/

theorem prefix_drop_eq {α : Type} {u w cs : List α} (h : cs = u ++ w) :
    cs.drop u.length = w := by
  rw [h]
  exact List.drop_left u w

theorem takeWhile_drop_eq (p : Char → Bool) (cs : List Char) :
    cs = cs.takeWhile p ++ cs.drop (cs.takeWhile p).length := by
  rcases (List.takeWhile_prefix p (l := cs)) with ⟨w, hw⟩
  have hd : cs.drop (cs.takeWhile p).length = w := prefix_drop_eq hw.symm
  rw [hd, hw]

theorem pickLabel_prefix (cs : List Char) : pickLabel cs <+: cs := by
  unfold pickLabel
  have hmem : ∀ l ∈ locatorLabels.filter (fun l => l.isPrefixOf cs), l <+: cs := by
    intro l hl
    exact List.isPrefixOf_iff_prefix.mp (List.mem_filter.mp hl).2
  have hgen : ∀ (L : List (List Char)) (b : List Char),
      (∀ l ∈ L, l <+: cs) → b <+: cs →
      (L.foldl (fun best l => if best.length < l.length then l else best) b) <+: cs := by
    intro L
    induction L with
    | nil => intro b _ hb; exact hb
    | cons x xs ih =>
      intro b hL hb
      refine ih _ (fun l hl => hL l (List.mem_cons_of_mem x hl)) ?_
      by_cases h : b.length < x.length
      · simpa [h] using hL x (List.mem_cons_self x xs)
      · simpa [h] using hb
  exact hgen _ [] hmem List.nil_prefix

theorem locatorsMatch_spec {cs sp0 lab sp1 : List Char}
    (h : locatorsMatch cs = some (sp0, lab, sp1)) :
    cs = sp0 ++ lab ++ sp1 ++ cs.drop (sp0.length + lab.length + sp1.length) ∧
      lab ≠ [] := by
  unfold locatorsMatch at h
  by_cases hlab : (pickLabel (cs.drop (cs.takeWhile locSepB).length)).isEmpty
  · rw [if_pos hlab] at h
    cases h
  · rw [if_neg hlab] at h
    simp only [Option.some.injEq, Prod.mk.injEq] at h
    obtain ⟨h0, hl, h1⟩ := h
    subst h0
    subst hl
    subst h1
    have hcs : cs = cs.takeWhile locSepB ++
        cs.drop (cs.takeWhile locSepB).length := takeWhile_drop_eq locSepB cs
    have hne : pickLabel (cs.drop (cs.takeWhile locSepB).length) ≠ [] := by
      intro hnil
      rw [hnil] at hlab
      simp at hlab
    refine ⟨?_, hne⟩
    generalize hR : cs.drop (cs.takeWhile locSepB).length = rest at *
    have hrest2 : rest = pickLabel rest ++ rest.drop (pickLabel rest).length := by
      rcases pickLabel_prefix rest with ⟨w, hw⟩
      have hd : rest.drop (pickLabel rest).length = w := prefix_drop_eq hw.symm
      rw [hd, hw]
    generalize hR2 : rest.drop (pickLabel rest).length = rest2 at *
    have hrest3 : rest2 = rest2.takeWhile locSpB ++
        rest2.drop (rest2.takeWhile locSpB).length := takeWhile_drop_eq locSpB rest2
    have hdecomp : cs = (cs.takeWhile locSepB ++ pickLabel rest ++
        rest2.takeWhile locSpB) ++ rest2.drop (rest2.takeWhile locSpB).length := by
      conv_lhs => rw [hcs, hrest2, hrest3]
      simp [List.append_assoc]
    have hdrop : cs.drop ((cs.takeWhile locSepB).length + (pickLabel rest).length +
        (rest2.takeWhile locSpB).length) = rest2.drop (rest2.takeWhile locSpB).length := by
      have := prefix_drop_eq hdecomp
      simpa [List.length_append, Nat.add_assoc] using this
    rw [hdrop]
    simpa [List.append_assoc] using hdecomp

theorem locOptOpen_spec (cs : List Char) :
    cs = (locOptOpen cs).1 ++ (locOptOpen cs).2 := by
  unfold locOptOpen
  cases cs with
  | nil => rfl
  | cons c rest =>
    by_cases h : c == '[' || c == '('
    · simp [h]
    · simp [h]

theorem locOptClose_spec (cs : List Char) :
    cs = (locOptClose cs).1 ++ (locOptClose cs).2 := by
  unfold locOptClose
  cases cs with
  | nil => rfl
  | cons c rest =>
    by_cases h : c == ']' || c == ')'
    · simp [h]
    · simp [h]

theorem locPlain_spec {cs m rest : List Char}
    (h : locPlain cs = some (m, rest)) : cs = m ++ rest ∧ m ≠ [] := by
  unfold locPlain at h
  simp only [] at h
  split at h
  · cases h
  · rename_i hcond
    simp only [Option.some.injEq, Prod.mk.injEq] at h
    obtain ⟨rfl, rfl⟩ := h
    refine ⟨?_, ?_⟩
    · exact takeWhile_drop_eq locPlainB cs
    · intro hnil
      simp [hnil] at hcond

theorem locRoman_spec {cs m rest : List Char}
    (h : locRoman cs = some (m, rest)) : cs = m ++ rest ∧ m ≠ [] := by
  unfold locRoman at h
  simp only [] at h
  split at h
  · cases h
  · rename_i hcond
    simp only [Option.some.injEq, Prod.mk.injEq] at h
    obtain ⟨rfl, rfl⟩ := h
    refine ⟨takeWhile_drop_eq locRomanB cs, ?_⟩
    intro hnil
    simp [hnil] at hcond

theorem locRange_spec {cs m rest : List Char}
    (h : locRange cs = some (m, rest)) : cs = m ++ rest ∧ m ≠ [] := by
  unfold locRange at h
  simp only [] at h
  have e1 := locOptOpen_spec cs
  rcases hpr : locOptOpen cs with ⟨o1, r1⟩
  rw [hpr] at e1 h
  simp only [] at h e1
  have e2 := takeWhile_drop_eq locAlnumB r1
  have e3 := locOptClose_spec (r1.drop (r1.takeWhile locAlnumB).length)
  rcases hpc : locOptClose (r1.drop (r1.takeWhile locAlnumB).length) with ⟨c1, r2⟩
  rw [hpc] at e3 h
  simp only [] at h e3
  split at h
  · cases h
  · rename_i ha1
    split at h
    · rename_i cs2 d r3
      split at h
      · rename_i hd
        have e4 := locOptOpen_spec r3
        rcases hpo2 : locOptOpen r3 with ⟨o2, r4⟩
        rw [hpo2] at e4 h
        simp only [] at h e4
        have e5 := takeWhile_drop_eq locAlnumB r4
        have e6 := locOptClose_spec (r4.drop (r4.takeWhile locAlnumB).length)
        rcases hpc2 : locOptClose (r4.drop (r4.takeWhile locAlnumB).length) with ⟨c2, r5⟩
        rw [hpc2] at e6 h
        simp only [] at h e6
        split at h
        · cases h
        · rename_i ha2
          simp only [Option.some.injEq, Prod.mk.injEq] at h
          obtain ⟨rfl, rfl⟩ := h
          constructor
          · conv_lhs => rw [e1, e2, e3, e4, e5, e6]
            simp [List.append_assoc]
          · intro hnil
            simp only [List.append_eq_nil] at hnil
            exact List.cons_ne_nil d [] hnil.1.1.1.2
      · cases h
    · cases h

theorem locItem_spec {cs m rest : List Char}
    (h : locItem cs = some (m, rest)) : cs = m ++ rest ∧ m ≠ [] := by
  unfold locItem at h
  split at h
  · rename_i r hr
    obtain rfl : r = (m, rest) := by
      simpa using h
    exact locRange_spec hr
  · split at h
    · rename_i r hr
      obtain rfl : r = (m, rest) := by
        simpa using h
      exact locPlain_spec hr
    · exact locRoman_spec h

theorem locItem_spec' {cs : List Char} {p : List Char × List Char}
    (h : locItem cs = some p) : cs = p.1 ++ p.2 ∧ p.1 ≠ [] :=
  @locItem_spec cs p.1 p.2 (by rwa [Prod.mk.eta])

theorem locListGo_spec (fuel : Nat) :
    ∀ (acc rest : List Char), ∃ m r, locListGo fuel acc rest = acc ++ m ∧
      rest = m ++ r := by
  induction fuel with
  | zero =>
    intro acc rest
    exact ⟨[], rest, by simp [locListGo], rfl⟩
  | succ fuel ih =>
    intro acc rest
    unfold locListGo
    split
    · rename_i r1 hr1
      split
      · rename_i p hitem
        rcases ih (acc ++ rest.takeWhile locSpB ++ [','] ++
            r1.takeWhile locSpB ++ p.1) p.2 with ⟨m2, r3, hgo, hr2⟩
        refine ⟨rest.takeWhile locSpB ++ [','] ++ r1.takeWhile locSpB ++ p.1 ++ m2,
          r3, ?_, ?_⟩
        · rw [hgo]
          simp [List.append_assoc]
        · have hrest : rest = rest.takeWhile locSpB ++ (',' :: r1) := by
            have h1 := takeWhile_drop_eq locSpB rest
            rwa [hr1] at h1
          have hr1d : r1 = r1.takeWhile locSpB ++
              (r1.drop (r1.takeWhile locSpB).length) := takeWhile_drop_eq locSpB r1
          have hitem' : r1.drop (r1.takeWhile locSpB).length = p.1 ++ p.2 :=
            (locItem_spec' hitem).1
          conv_lhs => rw [hrest, hr1d, hitem', hr2]
          simp [List.append_assoc]
      · exact ⟨[], rest, by simp, rfl⟩
    · exact ⟨[], rest, by simp, rfl⟩

theorem locatorReMatch_spec {cs loc : List Char}
    (h : locatorReMatch cs = some loc) :
    cs = loc ++ cs.drop loc.length ∧ loc ≠ [] := by
  unfold locatorReMatch at h
  split at h
  · rename_i p hitem
    obtain ⟨hcs, hmi⟩ := locItem_spec' hitem
    rcases locListGo_spec p.2.length p.1 p.2 with ⟨m2, r2, hgo, hrest⟩
    simp only [Option.some.injEq] at h
    have hloc : loc = p.1 ++ m2 := by rw [← h, hgo]
    have hcs' : cs = loc ++ r2 := by
      rw [hcs, hrest, hloc]
      simp [List.append_assoc]
    have hd : cs.drop loc.length = r2 := prefix_drop_eq hcs'
    refine ⟨?_, ?_⟩
    · rw [hd]
      exact hcs'
    · intro hnil
      rw [hloc] at hnil
      simp only [List.append_eq_nil] at hnil
      exact hmi hnil.1
  · cases h

/-! ### Well-formedness of the locator-parser output -/

theorem flatten_filter_ne_empty (l : List (SegmentType × List Char)) :
    ((l.filter (fun p => !p.2.isEmpty)).map Prod.snd).flatten =
      (l.map Prod.snd).flatten := by
  induction l with
  | nil => rfl
  | cons p rest ih =>
    by_cases hp : p.2.isEmpty
    · have hnil : p.2 = [] := by
        cases h2 : p.2
        · rfl
        · rw [h2] at hp; simp at hp
      simp [List.filter_cons, hp, hnil, ih]
    · simp [List.filter_cons, hp, ih]

theorem mkChunkSegs_inv (t : List Char) :
    ∀ (chunks : List (SegmentType × List Char)) (f i : Nat),
      (chunks.map Prod.snd).flatten = slice t f i →
      f + ((chunks.map Prod.snd).flatten).length = i →
      (∀ p ∈ chunks, p.2 ≠ []) →
      SegsWF t i (mkChunkSegs f chunks) ∧ Chained f (mkChunkSegs f chunks) ∧
        lastTo f (mkChunkSegs f chunks) = i ∧
        (chunks ≠ [] → ∀ d, firstFrom d (mkChunkSegs f chunks) = f) := by
  intro chunks
  induction chunks with
  | nil =>
    intro f i _ hlen _
    refine ⟨SegsWF_nil, trivial, ?_, fun h => absurd rfl h⟩
    simpa [mkChunkSegs, lastTo] using hlen
  | cons p rest ih =>
    intro f i hjoin hlen hne
    have hjoin' : p.2 ++ (rest.map Prod.snd).flatten = slice t f i := by
      simpa using hjoin
    have hlen' : f + (p.2 ++ (rest.map Prod.snd).flatten).length = i := by
      simpa using hlen
    have hlen'' : f + p.2.length + ((rest.map Prod.snd).flatten).length = i := by
      simp only [List.length_append] at hlen'
      omega
    have hv : p.2 = slice t f (f + p.2.length) := by
      have h2 := slice_take_of_le hjoin' hlen' (b := p.2.length) (by simp)
      rwa [List.take_left ..] at h2
    have hrest : (rest.map Prod.snd).flatten = slice t (f + p.2.length) i := by
      have h1 : (p.2 ++ (rest.map Prod.snd).flatten).drop p.2.length =
          (rest.map Prod.snd).flatten := List.drop_left ..
      rw [← h1]
      exact slice_drop hjoin' p.2.length
    have hlen2 : (f + p.2.length) + ((rest.map Prod.snd).flatten).length = i := by
      omega
    obtain ⟨ihWF, ihCh, ihLast, _⟩ :=
      ih (f + p.2.length) i hrest hlen2
        (fun q hq => hne q (List.mem_cons_of_mem p hq))
    have hpne : p.2 ≠ [] := hne p (List.mem_cons_self p rest)
    have hplen : 0 < p.2.length := List.length_pos.mpr hpne
    refine ⟨?_, ⟨le_refl f, ihCh⟩, ?_, ?_⟩
    · intro sg hsg
      rcases List.mem_cons.mp hsg with rfl | hsg'
      · refine ⟨⟨?_, ?_⟩, ?_⟩
        · show f < f + p.2.length
          omega
        · exact hv
        · show f + p.2.length ≤ i
          omega
      · exact ihWF sg hsg'
    · simpa [mkChunkSegs, lastTo] using ihLast
    · intro _ d
      rfl

theorem parsePossibleLocator_inv (t : List Char) (i : Nat) (cur : Segment)
    (hlen : cur.from' + cur.val.length = i)
    (hslice : cur.val = slice t cur.from' i) :
    SegsWF t i (parsePossibleLocator cur) ∧
      Chained cur.from' (parsePossibleLocator cur) ∧
      (parsePossibleLocator cur ≠ [] →
        lastTo cur.from' (parsePossibleLocator cur) = i ∧
        ∀ d, firstFrom d (parsePossibleLocator cur) = cur.from') := by
  unfold parsePossibleLocator
  split
  · exact ⟨SegsWF_nil, trivial, fun h => absurd rfl h⟩
  · rename_i sp0 lab sp1 hm
    simp only []
    split
    · exact ⟨SegsWF_nil, trivial, fun h => absurd rfl h⟩
    · rename_i loc hre
      obtain ⟨hdec, hlabne⟩ := locatorsMatch_spec hm
      obtain ⟨hsl, hlocne⟩ := locatorReMatch_spec hre
      have hjoinall :
          (([(SegmentType.locatorSuffix, sp0), (SegmentType.locatorLabel, lab),
            (SegmentType.locatorSuffix, sp1), (SegmentType.locator, loc),
            (SegmentType.suffix,
              (cur.val.drop (sp0.length + lab.length + sp1.length)).drop
                loc.length)].filter
              (fun p => !p.2.isEmpty)).map Prod.snd).flatten = cur.val := by
        rw [flatten_filter_ne_empty]
        simp only [List.map_cons, List.map_nil, List.flatten_cons,
          List.flatten_nil, List.append_nil]
        conv_rhs => rw [hdec]
        rw [← hsl]
        simp [List.append_assoc]
      have hjoin2 :
          (([(SegmentType.locatorSuffix, sp0), (SegmentType.locatorLabel, lab),
            (SegmentType.locatorSuffix, sp1), (SegmentType.locator, loc),
            (SegmentType.suffix,
              (cur.val.drop (sp0.length + lab.length + sp1.length)).drop
                loc.length)].filter
              (fun p => !p.2.isEmpty)).map Prod.snd).flatten =
            slice t cur.from' i := by
        rw [hjoinall]; exact hslice
      have hlen2 : cur.from' +
          ((([(SegmentType.locatorSuffix, sp0), (SegmentType.locatorLabel, lab),
            (SegmentType.locatorSuffix, sp1), (SegmentType.locator, loc),
            (SegmentType.suffix,
              (cur.val.drop (sp0.length + lab.length + sp1.length)).drop
                loc.length)].filter
              (fun p => !p.2.isEmpty)).map Prod.snd).flatten).length = i := by
        rw [hjoinall]; exact hlen
      have hne : ∀ p ∈ ([(SegmentType.locatorSuffix, sp0),
          (SegmentType.locatorLabel, lab), (SegmentType.locatorSuffix, sp1),
          (SegmentType.locator, loc),
          (SegmentType.suffix,
            (cur.val.drop (sp0.length + lab.length + sp1.length)).drop
              loc.length)].filter (fun p => !p.2.isEmpty)), p.2 ≠ [] := by
        intro p hp
        have := (List.mem_filter.mp hp).2
        intro hnil
        rw [hnil] at this
        simp at this
      obtain ⟨hWF, hCh, hLast, hFirst⟩ :=
        mkChunkSegs_inv t _ cur.from' i hjoin2 hlen2 hne
      refine ⟨hWF, hCh, fun hne2 => ⟨hLast, ?_⟩⟩
      intro d
      apply hFirst
      intro hnil
      have hlabmem : (SegmentType.locatorLabel, lab) ∈
          ([(SegmentType.locatorSuffix, sp0), (SegmentType.locatorLabel, lab),
            (SegmentType.locatorSuffix, sp1), (SegmentType.locator, loc),
            (SegmentType.suffix,
              (cur.val.drop (sp0.length + lab.length + sp1.length)).drop
                loc.length)].filter (fun p => !p.2.isEmpty)) := by
        apply List.mem_filter.mpr
        refine ⟨by simp, ?_⟩
        simp only [Bool.not_eq_true']
        cases hl : lab
        · exact absurd hl hlabne
        · simp
      rw [hnil] at hlabmem
      cases hlabmem

theorem parseExplicitLocator_inv (t : List Char) (i : Nat) (cur : Segment)
    (hlen : cur.from' + cur.val.length = i)
    (hslice : cur.val = slice t cur.from' i) :
    SegsWF t i (parseExplicitLocator cur).1 ∧
      Chained cur.from' (parseExplicitLocator cur).1 ∧
      ((parseExplicitLocator cur).1 ≠ [] →
        lastTo cur.from' (parseExplicitLocator cur).1 = i ∧
        ∀ d, firstFrom d (parseExplicitLocator cur).1 = cur.from') ∧
      (parseExplicitLocator cur).2.from' = cur.from' ∧
      (parseExplicitLocator cur).2.val = cur.val := by
  unfold parseExplicitLocator
  split
  · exact ⟨SegsWF_nil, trivial, fun h => absurd rfl h, rfl, rfl⟩
  · rename_i sp0 lab sp1 hm
    simp only []
    split
    · exact ⟨SegsWF_nil, trivial, fun h => absurd rfl h, rfl, rfl⟩
    · rename_i hslne
      obtain ⟨hdec, hlabne⟩ := locatorsMatch_spec hm
      have hjoinall :
          (([(SegmentType.locatorSuffix, sp0), (SegmentType.locatorLabel, lab),
            (SegmentType.locatorSuffix, sp1),
            (SegmentType.locator,
              cur.val.drop (sp0.length + lab.length + sp1.length))].filter
              (fun p => !p.2.isEmpty)).map Prod.snd).flatten = cur.val := by
        rw [flatten_filter_ne_empty]
        simp only [List.map_cons, List.map_nil, List.flatten_cons,
          List.flatten_nil, List.append_nil]
        conv_rhs => rw [hdec]
        simp [List.append_assoc]
      have hjoin2 := hjoinall.trans hslice
      have hlen2 : cur.from' +
          ((([(SegmentType.locatorSuffix, sp0), (SegmentType.locatorLabel, lab),
            (SegmentType.locatorSuffix, sp1),
            (SegmentType.locator,
              cur.val.drop (sp0.length + lab.length + sp1.length))].filter
              (fun p => !p.2.isEmpty)).map Prod.snd).flatten).length = i := by
        rw [hjoinall]; exact hlen
      have hne : ∀ p ∈ ([(SegmentType.locatorSuffix, sp0),
          (SegmentType.locatorLabel, lab), (SegmentType.locatorSuffix, sp1),
          (SegmentType.locator,
            cur.val.drop (sp0.length + lab.length + sp1.length))].filter
            (fun p => !p.2.isEmpty)), p.2 ≠ [] := by
        intro p hp
        have := (List.mem_filter.mp hp).2
        intro hnil
        rw [hnil] at this
        simp at this
      obtain ⟨hWF, hCh, hLast, hFirst⟩ :=
        mkChunkSegs_inv t _ cur.from' i hjoin2 hlen2 hne
      refine ⟨hWF, hCh, fun hne2 => ⟨hLast, ?_⟩, rfl, rfl⟩
      intro d
      apply hFirst
      intro hnil
      have hlabmem : (SegmentType.locatorLabel, lab) ∈
          ([(SegmentType.locatorSuffix, sp0), (SegmentType.locatorLabel, lab),
            (SegmentType.locatorSuffix, sp1),
            (SegmentType.locator,
              cur.val.drop (sp0.length + lab.length + sp1.length))].filter
            (fun p => !p.2.isEmpty)) := by
        apply List.mem_filter.mpr
        refine ⟨by simp, ?_⟩
        simp only [Bool.not_eq_true']
        cases hl : lab
        · exact absurd hl hlabne
        · simp
      rw [hnil] at hlabmem
      cases hlabmem

theorem lastTo_eq_of_ne_nil {l : List Segment} (h : l ≠ []) (d d' : Nat) :
    lastTo d l = lastTo d' l := by
  cases l with
  | nil => exact absurd rfl h
  | cons s rest => rfl

/-- Everything `endCurrent` guarantees about the updated state: the segment
list stays well-formed, chained, ends exactly at `i`, keeps its start, keeps
(or gains) an `at` segment, and no flag other than `seekingLocator` (and the
current segment) changes. -/
theorem endCurrent_inv (t : List Char) (i : Nat) (sl : Bool) (s : State)
    (hWF : SegsWF t i s.segment) (hch : Chained 0 s.segment)
    (hvne : s.currentSegment.val ≠ [])
    (hlen : s.currentSegment.from' + s.currentSegment.val.length = i)
    (hslice : s.currentSegment.val = slice t s.currentSegment.from' i)
    (hlast : lastTo 0 s.segment ≤ s.currentSegment.from') :
    SegsWF t i (endCurrent sl i s).segment ∧
    Chained 0 (endCurrent sl i s).segment ∧
    lastTo 0 (endCurrent sl i s).segment = i ∧
    (endCurrent sl i s).segment ≠ [] ∧
    (∀ d, firstFrom d (endCurrent sl i s).segment = stLo s) ∧
    ((containsAt s.segment ∨ s.currentSegment.type = SegmentType.atSign) →
      containsAt (endCurrent sl i s).segment) ∧
    (endCurrent sl i s).inBrackets = s.inBrackets ∧
    (endCurrent sl i s).inKey = s.inKey ∧
    (endCurrent sl i s).inExplicitKey = s.inExplicitKey ∧
    (endCurrent sl i s).inExplicitLocator = s.inExplicitLocator ∧
    (endCurrent sl i s).inLink = s.inLink ∧
    (endCurrent sl i s).inSuffix = s.inSuffix ∧
    (endCurrent sl i s).seekingSuffix = s.seekingSuffix ∧
    (endCurrent sl i s).encounteredKey = s.encounteredKey ∧
    (endCurrent sl i s).shouldCancelSeek = s.shouldCancelSeek ∧
    (endCurrent sl i s).bracketDepth = s.bracketDepth := by
  have hfle : s.currentSegment.from' < i := by
    have := List.length_pos.mpr hvne
    omega
  -- facts about pushing a closed copy of the current segment
  have pushSeg : ∀ (ty : SegmentType),
      SegsWF t i (s.segment ++ [⟨ty, s.currentSegment.from', i,
        s.currentSegment.val⟩]) ∧
      Chained 0 (s.segment ++ [⟨ty, s.currentSegment.from', i,
        s.currentSegment.val⟩]) ∧
      lastTo 0 (s.segment ++ [⟨ty, s.currentSegment.from', i,
        s.currentSegment.val⟩]) = i ∧
      (∀ d, firstFrom d (s.segment ++ [⟨ty, s.currentSegment.from', i,
        s.currentSegment.val⟩]) = stLo s) := by
    intro ty
    refine ⟨?_, ?_, ?_, ?_⟩
    · refine SegsWF_append hWF ?_
      intro sg hsg
      rcases List.mem_cons.mp hsg with rfl | h'
      · exact ⟨⟨hfle, hslice⟩, le_refl i⟩
      · cases h'
    · exact Chained_append hch ⟨hlast, trivial⟩
    · rw [lastTo_append]
      rfl
    · intro d
      unfold stLo
      cases hseg : s.segment with
      | nil => rfl
      | cons a rest =>
        rw [← hseg, firstFrom_append_of_ne_nil (by rw [hseg]; simp) d,
          firstFrom_eq_of_ne_nil (by rw [hseg]; simp) d s.currentSegment.from']
  -- facts about appending a non-empty parse result
  have appSegs : ∀ (L : List Segment), SegsWF t i L → Chained s.currentSegment.from' L →
      L ≠ [] → lastTo s.currentSegment.from' L = i →
      (∀ d, firstFrom d L = s.currentSegment.from') →
      SegsWF t i (s.segment ++ L) ∧ Chained 0 (s.segment ++ L) ∧
      lastTo 0 (s.segment ++ L) = i ∧
      (∀ d, firstFrom d (s.segment ++ L) = stLo s) := by
    intro L hLWF hLch hLne hLlast hLfirst
    refine ⟨SegsWF_append hWF hLWF, ?_, ?_, ?_⟩
    · exact Chained_append hch (Chained_anti hLch hlast)
    · rw [lastTo_append, lastTo_eq_of_ne_nil hLne _ s.currentSegment.from']
      exact hLlast
    · intro d
      unfold stLo
      cases hseg : s.segment with
      | nil =>
        simp only [hseg, List.nil_append, firstFrom]
        exact hLfirst d
      | cons a rest =>
        rw [← hseg, firstFrom_append_of_ne_nil (by rw [hseg]; simp) d,
          firstFrom_eq_of_ne_nil (by rw [hseg]; simp) d s.currentSegment.from']
  unfold endCurrent
  simp only []
  by_cases hseek : (s.seekingLocator || sl) = true
  · rw [if_pos hseek]
    by_cases hsuf : (s.currentSegment.type == SegmentType.suffix) = true
    · rw [if_pos hsuf]
      by_cases hemp : (parsePossibleLocator s.currentSegment).isEmpty = true
      · rw [if_pos hemp]
        obtain ⟨a, b, c, d⟩ := pushSeg s.currentSegment.type
        exact ⟨a, b, c, by simp, d, fun h => by
          rcases h with h | h
          · exact containsAt_append_left h
          · exact ⟨_, List.mem_append_right _ (List.mem_cons_self _ _), h⟩,
          rfl, rfl, rfl, rfl, rfl, rfl, rfl, rfl, rfl, rfl⟩
      · rw [if_neg hemp]
        have hLne : parsePossibleLocator s.currentSegment ≠ [] := by
          intro h
          rw [h] at hemp
          simp at hemp
        obtain ⟨hLWF, hLch, hrest⟩ := parsePossibleLocator_inv t i
          s.currentSegment hlen hslice
        obtain ⟨hLlast, hLfirst⟩ := hrest hLne
        obtain ⟨a, b, c, d⟩ := appSegs _ hLWF hLch hLne hLlast hLfirst
        refine ⟨a, b, c, ?_, d, ?_, rfl, rfl, rfl, rfl, rfl, rfl, rfl, rfl,
          rfl, rfl⟩
        · intro h
          rcases List.append_eq_nil.mp h with ⟨_, h2⟩
          exact hLne h2
        · intro h
          rcases h with h | h
          · exact containsAt_append_left h
          · rw [h] at hsuf
            cases hsuf
    · rw [if_neg hsuf]
      by_cases hlocsuf :
          (s.currentSegment.type == SegmentType.locatorSuffix) = true
      · rw [if_pos hlocsuf]
        obtain ⟨hLWF, hLch, hrest, hcf, hcv⟩ := parseExplicitLocator_inv t i
          s.currentSegment hlen hslice
        by_cases hemp : (parseExplicitLocator s.currentSegment).1.isEmpty = true
        · rw [if_pos hemp]
          obtain ⟨a, b, c, d⟩ := pushSeg (parseExplicitLocator s.currentSegment).2.type
          have hEq : ({ (parseExplicitLocator s.currentSegment).2 with to' := i } : Segment) =
              ⟨(parseExplicitLocator s.currentSegment).2.type,
                s.currentSegment.from', i, s.currentSegment.val⟩ := by
            cases hp : (parseExplicitLocator s.currentSegment).2
            rw [hp] at hcf hcv
            simp only [] at hcf hcv
            simp [hcf, hcv]
          refine ⟨?_, ?_, ?_, ?_, ?_, ?_, rfl, rfl, rfl, rfl, rfl, rfl, rfl,
            rfl, rfl, rfl⟩
          · show SegsWF t i (s.segment ++ [_])
            rw [hEq]
            exact a
          · show Chained 0 (s.segment ++ [_])
            rw [hEq]
            exact b
          · show lastTo 0 (s.segment ++ [_]) = i
            rw [hEq]
            exact c
          · simp
          · intro d'
            show firstFrom d' (s.segment ++ [_]) = stLo s
            rw [hEq]
            exact d d'
          · intro h
            rcases h with h | h
            · exact containsAt_append_left h
            · rw [h] at hlocsuf
              cases hlocsuf
        · rw [if_neg hemp]
          have hLne : (parseExplicitLocator s.currentSegment).1 ≠ [] := by
            intro h
            rw [h] at hemp
            simp at hemp
          obtain ⟨hLlast, hLfirst⟩ := hrest hLne
          obtain ⟨a, b, c, d⟩ := appSegs _ hLWF hLch hLne hLlast hLfirst
          refine ⟨a, b, c, ?_, d, ?_, rfl, rfl, rfl, rfl, rfl, rfl, rfl, rfl,
            rfl, rfl⟩
          · intro h
            rcases List.append_eq_nil.mp h with ⟨_, h2⟩
            exact hLne h2
          · intro h
            rcases h with h | h
            · exact containsAt_append_left h
            · rw [h] at hlocsuf
              cases hlocsuf
      · rw [if_neg hlocsuf]
        obtain ⟨a, b, c, d⟩ := pushSeg s.currentSegment.type
        exact ⟨a, b, c, by simp, d, fun h => by
          rcases h with h | h
          · exact containsAt_append_left h
          · exact ⟨_, List.mem_append_right _ (List.mem_cons_self _ _), h⟩,
          rfl, rfl, rfl, rfl, rfl, rfl, rfl, rfl, rfl, rfl⟩
  · rw [if_neg hseek]
    obtain ⟨a, b, c, d⟩ := pushSeg s.currentSegment.type
    exact ⟨a, b, c, by simp, d, fun h => by
      rcases h with h | h
      · exact containsAt_append_left h
      · exact ⟨_, List.mem_append_right _ (List.mem_cons_self _ _), h⟩,
      rfl, rfl, rfl, rfl, rfl, rfl, rfl, rfl, rfl, rfl⟩

/-! ### The scanner invariant -/

/-- Invariant of one live scanner `State` at loop index `i`: its pushed
segments are well-formed and chained; when it is not in the stale
seeking-suffix mode, the segment being accumulated covers exactly
`[from', i)` of the text; a state that encountered a key carries an `at`
segment (possibly still the current one); a seeking state is a bare one
whose `at` segment is already pushed. -/
structure StInv (t : List Char) (i : Nat) (s : State) : Prop where
  segsWF : SegsWF t i s.segment
  chain : Chained 0 s.segment
  acc : s.seekingSuffix = false →
    s.currentSegment.val ≠ [] ∧
    s.currentSegment.from' + s.currentSegment.val.length = i ∧
    s.currentSegment.val = slice t s.currentSegment.from' i ∧
    lastTo 0 s.segment ≤ s.currentSegment.from' ∧
    (s.currentSegment.type = SegmentType.atSign →
      s.currentSegment.val = ['@'] ∧ s.inKey = true)
  encAt : s.encounteredKey = true →
    containsAt s.segment ∨
      (s.seekingSuffix = false ∧
        s.currentSegment.type = SegmentType.atSign)
  seekSufx : s.seekingSuffix = true →
    s.encounteredKey = true ∧ containsAt s.segment ∧ s.inBrackets = false ∧
      s.inKey = false
  keyEnc : s.inKey = true → s.encounteredKey = true

/-- Invariant of the whole scanner configuration at loop index `i`. -/
structure Inv (t : List Char) (i : Nat) (cfg : Config) : Prop where
  groupsWF : ∀ g ∈ cfg.out, SegsWF t i g ∧ Chained 0 g ∧ containsAt g
  groupsChain : GroupsChained 0 cfg.out
  stInv : ∀ s, cfg.st = some s → StInv t i s
  stLoOk : ∀ s, cfg.st = some s → outHi 0 cfg.out ≤ stLo s
  seekInv : ∀ ss, cfg.seek = some ss → SegsWF t i ss.segment ∧
    Chained 0 ss.segment ∧ containsAt ss.segment ∧
    (∀ d, outHi 0 cfg.out ≤ firstFrom d ss.segment)
  seekSt : ∀ ss s, cfg.seek = some ss → cfg.st = some s →
    lastTo 0 ss.segment ≤ stLo s ∧ s.inBrackets = true

theorem Inv_discard {t : List Char} {i : Nat} {seek : Option State}
    {out : List (List Segment)}
    (hout : ∀ g ∈ out, SegsWF t i g ∧ Chained 0 g ∧ containsAt g)
    (hchain : GroupsChained 0 out)
    (hseek : ∀ ss, seek = some ss → SegsWF t i ss.segment ∧
      Chained 0 ss.segment ∧ containsAt ss.segment ∧
      (∀ d, outHi 0 out ≤ firstFrom d ss.segment)) :
    Inv t (i + 1) ⟨none, seek, out⟩ where
  groupsWF g hg := ⟨SegsWF_mono (hout g hg).1 (by omega), (hout g hg).2⟩
  groupsChain := hchain
  stInv s h := by cases h
  stLoOk s h := by cases h
  seekInv ss h := ⟨SegsWF_mono (hseek ss h).1 (by omega), (hseek ss h).2⟩
  seekSt ss s _ h := by cases h

theorem Inv_emit {t : List Char} {i : Nat} {out : List (List Segment)}
    {g : List Segment}
    (hout : ∀ g' ∈ out, SegsWF t i g' ∧ Chained 0 g' ∧ containsAt g')
    (hchain : GroupsChained 0 out)
    (hgWF : SegsWF t (i + 1) g) (hgch : Chained 0 g) (hgat : containsAt g)
    (hfirst : ∀ d, outHi 0 out ≤ firstFrom d g) :
    Inv t (i + 1) ⟨none, none, out ++ [g]⟩ where
  groupsWF g' hg' := by
    rcases List.mem_append.mp hg' with h | h
    · exact ⟨SegsWF_mono (hout g' h).1 (by omega), (hout g' h).2⟩
    · rcases List.mem_singleton.mp h with rfl
      exact ⟨hgWF, hgch, hgat⟩
  groupsChain := GroupsChained_append hchain hfirst
  stInv s h := by cases h
  stLoOk s h := by cases h
  seekInv ss h := by cases h
  seekSt ss s h := by cases h

/-- The common "continue" shape: the state goes on with a freshly opened
one-character current segment at `i` whose type is not `at`, after its
previous segment was closed. -/
theorem Inv_continue {t : List Char} {i : Nat} {seek : Option State}
    {out : List (List Segment)} {s s' : State} {ch : Char} {τ : SegmentType}
    (hout : ∀ g ∈ out, SegsWF t i g ∧ Chained 0 g ∧ containsAt g)
    (hchain : GroupsChained 0 out)
    (hstLo : outHi 0 out ≤ stLo s)
    (hseek : ∀ ss, seek = some ss → SegsWF t i ss.segment ∧
      Chained 0 ss.segment ∧ containsAt ss.segment ∧
      (∀ d, outHi 0 out ≤ firstFrom d ss.segment))
    (hseekSt : ∀ ss, seek = some ss →
      lastTo 0 ss.segment ≤ stLo s ∧ s.inBrackets = true)
    (hsegWF : SegsWF t i s'.segment) (hsegCh : Chained 0 s'.segment)
    (hsegLast : lastTo 0 s'.segment = i) (hsegNe : s'.segment ≠ [])
    (hsegFirst : ∀ d, firstFrom d s'.segment = stLo s)
    (hsegCA : s.encounteredKey = true → containsAt s'.segment)
    (hcur : s'.currentSegment = newCurrent i ch τ)
    (hτ : τ ≠ SegmentType.atSign)
    (hchr : t[i]? = some ch)
    (hss : s'.seekingSuffix = false)
    (henc : s'.encounteredKey = s.encounteredKey)
    (hkey : s'.inKey = true → s.encounteredKey = true)
    (hbrk : s'.inBrackets = s.inBrackets) :
    Inv t (i + 1) ⟨some s', seek, out⟩ where
  groupsWF g hg := ⟨SegsWF_mono (hout g hg).1 (by omega), (hout g hg).2⟩
  groupsChain := hchain
  stInv s'' h := by
    cases h
    exact {
      segsWF := SegsWF_mono hsegWF (by omega)
      chain := hsegCh
      acc := fun _ => by
        rw [hcur]
        refine ⟨by simp [newCurrent], by simp [newCurrent], ?_, ?_, ?_⟩
        · simpa [newCurrent] using ((slice_one t i ch).mpr hchr).symm
        · simp only [newCurrent]
          omega
        · intro hty
          simp only [newCurrent] at hty
          exact absurd hty hτ
      encAt := fun he => Or.inl (hsegCA (henc ▸ he))
      seekSufx := fun h2 => by rw [hss] at h2; cases h2
      keyEnc := fun hk => henc.symm ▸ hkey hk }
  stLoOk s'' h := by
    cases h
    show outHi 0 out ≤ stLo s'
    unfold stLo
    rw [firstFrom_eq_of_ne_nil hsegNe s'.currentSegment.from' 0, hsegFirst 0]
    exact hstLo
  seekInv ss h := ⟨SegsWF_mono (hseek ss h).1 (by omega), (hseek ss h).2⟩
  seekSt ss s'' h h' := by
    cases h'
    have h1 : stLo s' = stLo s := by
      unfold stLo
      rw [firstFrom_eq_of_ne_nil hsegNe s'.currentSegment.from' 0, hsegFirst 0]
      rfl
    constructor
    · show lastTo 0 ss.segment ≤ stLo s'
      rw [h1]
      exact (hseekSt ss h).1
    · show s'.inBrackets = true
      rw [hbrk]
      exact (hseekSt ss h).2

/-- The catch-all shape: the current segment absorbs the character at `i`. -/
theorem Inv_append_val {t : List Char} {i : Nat} {seek : Option State}
    {out : List (List Segment)} {s : State} {ch : Char}
    (hout : ∀ g ∈ out, SegsWF t i g ∧ Chained 0 g ∧ containsAt g)
    (hchain : GroupsChained 0 out)
    (hst : StInv t i s)
    (hstLo : outHi 0 out ≤ stLo s)
    (hseek : ∀ ss, seek = some ss → SegsWF t i ss.segment ∧
      Chained 0 ss.segment ∧ containsAt ss.segment ∧
      (∀ d, outHi 0 out ≤ firstFrom d ss.segment))
    (hseekSt : ∀ ss, seek = some ss →
      lastTo 0 ss.segment ≤ stLo s ∧ s.inBrackets = true)
    (hseeking : s.seekingSuffix = false)
    (hcurat : s.currentSegment.type ≠ SegmentType.atSign)
    (hencCA : s.encounteredKey = true → containsAt s.segment)
    (hchr : t[i]? = some ch) :
    Inv t (i + 1) ⟨some { s with currentSegment :=
      { s.currentSegment with val := s.currentSegment.val ++ [ch] } },
      seek, out⟩ := by
  obtain ⟨hvne, hlen, hslice, hlast, _⟩ := hst.acc hseeking
  exact {
    groupsWF := fun g hg =>
      ⟨SegsWF_mono (hout g hg).1 (by omega), (hout g hg).2⟩
    groupsChain := hchain
    stInv := fun s'' h => by
      cases h
      exact {
        segsWF := SegsWF_mono hst.segsWF (by omega)
        chain := hst.chain
        acc := fun _ => by
          refine ⟨by simp, by simp; omega, ?_, hlast, ?_⟩
          · show s.currentSegment.val ++ [ch] =
              slice t s.currentSegment.from' (i + 1)
            rw [hslice]
            exact slice_snoc hchr (by omega)
          · intro hty
            exact absurd hty hcurat
        encAt := fun he => Or.inl (hencCA he)
        seekSufx := fun h2 => by
          rw [show ({ s with currentSegment :=
            { s.currentSegment with val := s.currentSegment.val ++ [ch] }
            } : State).seekingSuffix = s.seekingSuffix from rfl, hseeking] at h2
          cases h2
        keyEnc := fun hk => hst.keyEnc hk }
    stLoOk := fun s'' h => by
      cases h
      exact hstLo
    seekInv := fun ss h =>
      ⟨SegsWF_mono (hseek ss h).1 (by omega), (hseek ss h).2⟩
    seekSt := fun ss s'' h h' => by
      cases h'
      exact hseekSt ss h }

/-- The bare-citation "stale" shape: `seekingSuffix` is set and the state's
pushed segments already hold its `at` segment. -/
theorem Inv_continue_stale {t : List Char} {i : Nat} {seek : Option State}
    {out : List (List Segment)} {s s' : State}
    (hout : ∀ g ∈ out, SegsWF t i g ∧ Chained 0 g ∧ containsAt g)
    (hchain : GroupsChained 0 out)
    (hstLo : outHi 0 out ≤ stLo s)
    (hseek : ∀ ss, seek = some ss → SegsWF t i ss.segment ∧
      Chained 0 ss.segment ∧ containsAt ss.segment ∧
      (∀ d, outHi 0 out ≤ firstFrom d ss.segment))
    (hseekSt : ∀ ss, seek = some ss →
      lastTo 0 ss.segment ≤ stLo s ∧ s.inBrackets = true)
    (hsbrk : s.inBrackets = false)
    (hsegWF : SegsWF t (i + 1) s'.segment) (hsegCh : Chained 0 s'.segment)
    (hsegNe : s'.segment ≠ [])
    (hsegFirst : ∀ d, firstFrom d s'.segment = stLo s)
    (hCA : containsAt s'.segment)
    (hss' : s'.seekingSuffix = true)
    (hENC : s'.encounteredKey = true)
    (hbrk' : s'.inBrackets = false) (hkey' : s'.inKey = false) :
    Inv t (i + 1) ⟨some s', seek, out⟩ where
  groupsWF g hg := ⟨SegsWF_mono (hout g hg).1 (by omega), (hout g hg).2⟩
  groupsChain := hchain
  stInv s'' h := by
    cases h
    exact {
      segsWF := hsegWF
      chain := hsegCh
      acc := fun h2 => by rw [hss'] at h2; cases h2
      encAt := fun _ => Or.inl hCA
      seekSufx := fun _ => ⟨hENC, hCA, hbrk', hkey'⟩
      keyEnc := fun hk => by rw [hkey'] at hk; cases hk }
  stLoOk s'' h := by
    cases h
    show outHi 0 out ≤ stLo s'
    unfold stLo
    rw [firstFrom_eq_of_ne_nil hsegNe s'.currentSegment.from' 0, hsegFirst 0]
    exact hstLo
  seekInv ss h := ⟨SegsWF_mono (hseek ss h).1 (by omega), (hseek ss h).2⟩
  seekSt ss s'' h h' := by
    have := (hseekSt ss h).2
    rw [hsbrk] at this
    cases this

/-- The `endSegment` shape: the group is emitted exactly when a key was
encountered, and the state dies. -/
theorem Inv_endSegment {t : List Char} {i : Nat} {seek : Option State}
    {out : List (List Segment)} {s' : State}
    (hout : ∀ g ∈ out, SegsWF t i g ∧ Chained 0 g ∧ containsAt g)
    (hchain : GroupsChained 0 out)
    (hseekNone : seek = none)
    (hWF : SegsWF t (i + 1) s'.segment) (hch : Chained 0 s'.segment)
    (hCA : s'.encounteredKey = true → containsAt s'.segment)
    (hfirst : s'.encounteredKey = true →
      ∀ d, outHi 0 out ≤ firstFrom d s'.segment) :
    Inv t (i + 1) ⟨none, seek, endSegmentOut s' out⟩ := by
  subst hseekNone
  unfold endSegmentOut
  by_cases henc : s'.encounteredKey = true
  · rw [if_pos henc]
    exact Inv_emit hout hchain hWF hch (hCA henc) (hfirst henc)
  · rw [if_neg henc]
    exact Inv_discard hout hchain (fun ss h => by cases h)

theorem block5Tail_inv (t : List Char) (i : Nat)
    (prev next : Option Char) (seek : Option State)
    (out : List (List Segment)) (s : State) (ch : Char)
    (hchr : t[i]? = some ch)
    (hout : ∀ g ∈ out, SegsWF t i g ∧ Chained 0 g ∧ containsAt g)
    (hchain : GroupsChained 0 out)
    (hst : StInv t i s)
    (hstLo : outHi 0 out ≤ stLo s)
    (hseek : ∀ ss, seek = some ss → SegsWF t i ss.segment ∧
      Chained 0 ss.segment ∧ containsAt ss.segment ∧
      (∀ d, outHi 0 out ≤ firstFrom d ss.segment))
    (hseekSt : ∀ ss, seek = some ss →
      lastTo 0 ss.segment ≤ stLo s ∧ s.inBrackets = true)
    (hseeking : s.seekingSuffix = false)
    (hcurat : s.currentSegment.type ≠ SegmentType.atSign)
    (hencCA : s.encounteredKey = true → containsAt s.segment) :
    Inv t (i + 1) (block5Tail prev next i seek out s ch) := by
  obtain ⟨hvne, hlen, hslice, hlast, hatc⟩ := hst.acc hseeking
  obtain ⟨eWF, eCh, eLast, eNe, eFirst, eCA, eBr, eKey, eEK, eEL, eLk, eSfx,
    eSS, eEnc, eCS, eBD⟩ := endCurrent_inv t i (seekLocOf seek) s hst.segsWF
      hst.chain hvne hlen hslice hlast
  unfold block5Tail
  by_cases h1 : (ch == ';') = true
  · rw [if_pos h1]
    exact Inv_continue hout hchain hstLo hseek hseekSt eWF eCh eLast eNe eFirst
      (fun he => eCA (Or.inl (hencCA he))) rfl (by decide) hchr
      (eSS.trans hseeking) eEnc (fun h => hst.keyEnc (by rw [← eKey]; exact h))
      eBr
  · rw [if_neg h1]
    by_cases h2 : (ch == '-' && next == some '@') = true
    · rw [if_pos h2]
      exact Inv_continue hout hchain hstLo hseek hseekSt eWF eCh eLast eNe
        eFirst (fun he => eCA (Or.inl (hencCA he))) rfl (by decide) hchr
        (eSS.trans hseeking) eEnc
        (fun h => hst.keyEnc (by rw [← eKey]; exact h)) eBr
    · rw [if_neg h2]
      by_cases h3 : (ch == '|' && next == some '@') = true
      · rw [if_pos h3]
        obtain ⟨fWF, fCh, fLast, fNe, fFirst, fCA, fBr, fKey, fEK, fEL, fLk,
          fSfx, fSS, fEnc, fCS, fBD⟩ := endCurrent_inv t i (seekLocOf seek)
            { s with currentSegment :=
              { s.currentSegment with type := SegmentType.litNote } }
            hst.segsWF hst.chain hvne hlen hslice hlast
        exact Inv_continue hout hchain hstLo hseek hseekSt fWF fCh fLast fNe
          fFirst (fun he => fCA (Or.inl (hencCA he))) rfl (by decide) hchr
          (fSS.trans hseeking) fEnc
          (fun h => hst.keyEnc (fKey.symm.trans h)) fBr
      · rw [if_neg h3]
        by_cases h4 : (ch == '\x7B') = true
        · rw [if_pos h4]
          by_cases h4b : seekLocOf seek = true
          · rw [if_pos h4b]
            exact Inv_continue hout hchain hstLo hseek hseekSt eWF eCh eLast
              eNe eFirst (fun he => eCA (Or.inl (hencCA he))) rfl (by decide)
              hchr (eSS.trans hseeking) eEnc
              (fun h => hst.keyEnc (by rw [← eKey]; exact h)) eBr
          · rw [if_neg h4b]
            exact Inv_continue hout hchain hstLo hseek hseekSt eWF eCh eLast
              eNe eFirst (fun he => eCA (Or.inl (hencCA he))) rfl (by decide)
              hchr (eSS.trans hseeking) eEnc
              (fun h => hst.keyEnc (by rw [← eKey]; exact h)) eBr
        · rw [if_neg h4]
          by_cases h5 : (ch == '\x7D') = true
          · rw [if_pos h5]
            by_cases h5b : (s.inExplicitLocator &&
                (s.currentSegment.type == SegmentType.suffix)) = true
            · rw [if_pos h5b]
              obtain ⟨fWF, fCh, fLast, fNe, fFirst, fCA, fBr, fKey, fEK, fEL,
                fLk, fSfx, fSS, fEnc, fCS, fBD⟩ := endCurrent_inv t i
                  (seekLocOf seek)
                  { s with
                    currentSegment :=
                      { s.currentSegment with type := SegmentType.locatorSuffix }
                    seekingLocator := false }
                  hst.segsWF hst.chain hvne hlen hslice hlast
              exact Inv_continue hout hchain hstLo hseek hseekSt fWF fCh fLast
                fNe fFirst (fun he => fCA (Or.inl (hencCA he))) rfl (by decide)
                hchr (fSS.trans hseeking) fEnc
                (fun h => hst.keyEnc (fKey.symm.trans h)) fBr
            · rw [if_neg h5b]
              exact Inv_continue hout hchain hstLo hseek hseekSt eWF eCh eLast
                eNe eFirst (fun he => eCA (Or.inl (hencCA he))) rfl (by decide)
                hchr (eSS.trans hseeking) eEnc
                (fun h => hst.keyEnc (by rw [← eKey]; exact h)) eBr
          · rw [if_neg h5]
            by_cases h6 : (prev == some '\x7B') = true
            · rw [if_pos h6]
              by_cases h6b : (s.seekingLocator && s.encounteredKey) = true
              · rw [if_pos h6b]
                exact Inv_continue hout hchain hstLo hseek hseekSt eWF eCh
                  eLast eNe eFirst (fun he => eCA (Or.inl (hencCA he))) rfl
                  (by decide) hchr (eSS.trans hseeking) eEnc
                  (fun h => hst.keyEnc (by rw [← eKey]; exact h)) eBr
              · rw [if_neg h6b]
                exact Inv_continue hout hchain hstLo hseek hseekSt eWF eCh
                  eLast eNe eFirst (fun he => eCA (Or.inl (hencCA he))) rfl
                  (by decide) hchr (eSS.trans hseeking) eEnc
                  (fun h => hst.keyEnc (by rw [← eKey]; exact h)) eBr
            · rw [if_neg h6]
              by_cases h7 : (prev == some '\x7D' || prev == some '\x7B') = true
              · rw [if_pos h7]
                exact Inv_continue hout hchain hstLo hseek hseekSt eWF eCh
                  eLast eNe eFirst (fun he => eCA (Or.inl (hencCA he))) rfl
                  (by decide) hchr (eSS.trans hseeking) eEnc
                  (fun h => hst.keyEnc (by rw [← eKey]; exact h)) eBr
              · rw [if_neg h7]
                by_cases h8 : (seek.isSome && prev == some ';') = true
                · rw [if_pos h8]
                  exact Inv_continue hout hchain hstLo hseek hseekSt eWF eCh
                    eLast eNe eFirst (fun he => eCA (Or.inl (hencCA he))) rfl
                    (by decide) hchr (eSS.trans hseeking) eEnc
                    (fun h => hst.keyEnc (by rw [← eKey]; exact h)) eBr
                · rw [if_neg h8]
                  by_cases h9 : (seek.isSome && prev == some '[' &&
                      s.bracketDepth == 1) = true
                  · rw [if_pos h9]
                    exact Inv_continue hout hchain hstLo hseek hseekSt eWF eCh
                      eLast eNe eFirst (fun he => eCA (Or.inl (hencCA he))) rfl
                      (by decide) hchr (eSS.trans hseeking) eEnc
                      (fun h => hst.keyEnc (by rw [← eKey]; exact h)) eBr
                  · rw [if_neg h9]
                    by_cases h10 : (!seek.isSome &&
                        (prev == some '[' || prev == some ';')) = true
                    · rw [if_pos h10]
                      exact Inv_continue hout hchain hstLo hseek hseekSt eWF
                        eCh eLast eNe eFirst
                        (fun he => eCA (Or.inl (hencCA he))) rfl (by decide)
                        hchr (eSS.trans hseeking) eEnc
                        (fun h => hst.keyEnc (by rw [← eKey]; exact h)) eBr
                    · rw [if_neg h10]
                      by_cases h11 : s.inKey = true
                      · rw [if_pos h11]
                        exact Inv_continue hout hchain hstLo hseek hseekSt eWF
                          eCh eLast eNe eFirst
                          (fun he => eCA (Or.inl (hencCA he))) rfl (by decide)
                          hchr (eSS.trans hseeking) eEnc
                          (fun h => by rw [show ({ endCurrent (seekLocOf seek) i s with
                              currentSegment := newCurrent i ch SegmentType.suffix,
                              inSuffix := true, inKey := false,
                              seekingLocator := true } : State).inKey = false
                            from rfl] at h; cases h) eBr
                      · rw [if_neg h11]
                        exact Inv_append_val hout hchain hst hstLo hseek
                          hseekSt hseeking hcurat hencCA hchr

theorem block5_inv (t : List Char) (ig : Bool) (i : Nat)
    (prev c next : Option Char) (seek : Option State)
    (out : List (List Segment)) (s : State)
    (hprev : prev = if i == 0 then none else t[i - 1]?)
    (hc : c = t[i]?)
    (hout : ∀ g ∈ out, SegsWF t i g ∧ Chained 0 g ∧ containsAt g)
    (hchain : GroupsChained 0 out)
    (hst : StInv t i s)
    (hstLo : outHi 0 out ≤ stLo s)
    (hseek : ∀ ss, seek = some ss → SegsWF t i ss.segment ∧
      Chained 0 ss.segment ∧ containsAt ss.segment ∧
      (∀ d, outHi 0 out ≤ firstFrom d ss.segment))
    (hseekSt : ∀ ss, seek = some ss →
      lastTo 0 ss.segment ≤ stLo s ∧ s.inBrackets = true)
    (hseeking : s.seekingSuffix = false)
    (hkeyPrev : s.inKey = true → ¬(prev = some '@' ∨ prev = some ':')) :
    Inv t (i + 1) (block5 prev c next ig i seek out s) := by
  obtain ⟨hvne, hlen, hslice, hlast, hatc⟩ := hst.acc hseeking
  have hcurat : s.currentSegment.type ≠ SegmentType.atSign := by
    intro h
    obtain ⟨hv, hk⟩ := hatc h
    obtain ⟨h1, hp⟩ := at_prev hv hlen hslice
    refine hkeyPrev hk (Or.inl ?_)
    rw [hprev]
    have hi0 : (i == 0) = false := by
      simp only [beq_eq_false_iff_ne, ne_eq]
      omega
    rw [hi0]
    exact hp
  have hencCA : s.encounteredKey = true → containsAt s.segment := by
    intro he
    rcases hst.encAt he with h | ⟨_, h⟩
    · exact h
    · exact absurd h hcurat
  unfold block5
  by_cases hterm : isTerminusOpt c = true
  · rw [if_pos hterm]
    exact Inv_discard hout hchain hseek
  · rw [if_neg hterm]
    cases c with
    | none => simp [isTerminusOpt] at hterm
    | some ch =>
      simp only []
      have hchr : t[i]? = some ch := hc.symm
      by_cases hbr : (ch == ']') = true
      · simp only [hbr, Bool.true_and, if_true]
        have hstd : StInv t i { s with bracketDepth := s.bracketDepth - 1 } :=
          ⟨hst.segsWF, hst.chain, hst.acc, hst.encAt, hst.seekSufx, hst.keyEnc⟩
        by_cases hd0 : (({ s with bracketDepth := s.bracketDepth - 1 } :
            State).bracketDepth == 0) = true
        · rw [if_pos hd0]
          by_cases hlink : (ig &&
              (({ s with bracketDepth := s.bracketDepth - 1 } : State).inLink ||
                next == some '(')) = true
          · rw [if_pos hlink]
            exact Inv_discard hout hchain (fun ss h => by cases h)
          · rw [if_neg hlink]
            obtain ⟨eWF, eCh, eLast, eNe, eFirst, eCA, eBr, eKey, eEK, eEL,
              eLk, eSfx, eSS, eEnc, eCS, eBD⟩ := endCurrent_inv t i
                (seekLocOf seek) { s with bracketDepth := s.bracketDepth - 1 }
                hst.segsWF hst.chain hvne hlen hslice hlast
            have hbrWF : SegsWF t (i + 1)
                ((endCurrent (seekLocOf seek) i
                  { s with bracketDepth := s.bracketDepth - 1 }).segment ++
                  [newCurrent i ch SegmentType.bracket]) := by
              refine SegsWF_append (SegsWF_mono eWF (by omega)) ?_
              intro sg hsg
              rcases List.mem_cons.mp hsg with rfl | h'
              · refine ⟨⟨by simp [newCurrent], ?_⟩, by simp [newCurrent]⟩
                simpa [newCurrent] using ((slice_one t i ch).mpr hchr).symm
              · cases h'
            have hbrCh : Chained 0
                ((endCurrent (seekLocOf seek) i
                  { s with bracketDepth := s.bracketDepth - 1 }).segment ++
                  [newCurrent i ch SegmentType.bracket]) := by
              refine Chained_append eCh ⟨?_, trivial⟩
              rw [eLast]
              simp [newCurrent]
            have hbrFirst : ∀ d, firstFrom d
                ((endCurrent (seekLocOf seek) i
                  { s with bracketDepth := s.bracketDepth - 1 }).segment ++
                  [newCurrent i ch SegmentType.bracket]) = stLo s := by
              intro d
              rw [firstFrom_append_of_ne_nil eNe d]
              exact eFirst d
            have hbrCA : s.encounteredKey = true → containsAt
                ((endCurrent (seekLocOf seek) i
                  { s with bracketDepth := s.bracketDepth - 1 }).segment ++
                  [newCurrent i ch SegmentType.bracket]) :=
              fun he => containsAt_append_left (eCA (Or.inl (hencCA he)))
            cases seek with
            | none =>
              apply Inv_endSegment hout hchain rfl hbrWF hbrCh
              · exact fun he => hbrCA (eEnc.symm.trans he)
              · intro he d
                rw [hbrFirst d]
                exact hstLo
            | some ss =>
              obtain ⟨sWFss, sChss, sCAss, sFss⟩ := hseek ss rfl
              obtain ⟨hlastSS, hbrSS⟩ := hseekSt ss rfl
              apply Inv_emit hout hchain
              · exact SegsWF_append (SegsWF_mono sWFss (by omega)) hbrWF
              · refine Chained_append sChss ?_
                exact Chained_of_le_firstFrom hbrCh
                  (fun d' => by rw [hbrFirst d']; exact hlastSS)
              · exact containsAt_append_left sCAss
              · intro d
                rw [firstFrom_append_of_ne_nil (containsAt_ne_nil sCAss) d]
                exact sFss d
        · rw [if_neg hd0]
          exact block5Tail_inv t i prev next seek out _ ch hchr hout hchain
            hstd hstLo hseek hseekSt hseeking hcurat hencCA
      · have hsimp : (if (ch == ']') = true then
            { s with bracketDepth := s.bracketDepth - 1 } else s) = s :=
          if_neg hbr
        rw [hsimp]
        rw [if_neg (fun hcc => hbr (Bool.and_eq_true .. |>.mp hcc).1)]
        exact block5Tail_inv t i prev next seek out s ch hchr hout hchain
          hst hstLo hseek hseekSt hseeking hcurat hencCA

theorem block4_inv (t : List Char) (ig : Bool) (i : Nat)
    (prev c next : Option Char) (seek : Option State)
    (out : List (List Segment)) (s : State)
    (hprev : prev = if i == 0 then none else t[i - 1]?)
    (hc : c = t[i]?)
    (hout : ∀ g ∈ out, SegsWF t i g ∧ Chained 0 g ∧ containsAt g)
    (hchain : GroupsChained 0 out)
    (hst : StInv t i s)
    (hstLo : outHi 0 out ≤ stLo s)
    (hseek : ∀ ss, seek = some ss → SegsWF t i ss.segment ∧
      Chained 0 ss.segment ∧ containsAt ss.segment ∧
      (∀ d, outHi 0 out ≤ firstFrom d ss.segment))
    (hseekSt : ∀ ss, seek = some ss →
      lastTo 0 ss.segment ≤ stLo s ∧ s.inBrackets = true)
    (hinKey : s.inKey = true) :
    Inv t (i + 1) (block4 prev c next ig i seek out s) := by
  have hseeking : s.seekingSuffix = false := by
    cases hss : s.seekingSuffix
    · rfl
    · exact absurd hinKey (by rw [(hst.seekSufx hss).2.2.2]; simp)
  have hENC : s.encounteredKey = true := hst.keyEnc hinKey
  have hdisj : containsAt s.segment ∨
      s.currentSegment.type = SegmentType.atSign := by
    rcases hst.encAt hENC with h | ⟨_, h⟩
    · exact Or.inl h
    · exact Or.inr h
  obtain ⟨hvne, hlen, hslice, hlast, hatc⟩ := hst.acc hseeking
  obtain ⟨eWF, eCh, eLast, eNe, eFirst, eCA, eBr, eKey, eEK, eEL, eLk, eSfx,
    eSS, eEnc, eCS, eBD⟩ := endCurrent_inv t i (seekLocOf seek) s hst.segsWF
      hst.chain hvne hlen hslice hlast
  have hCAE : containsAt (endCurrent (seekLocOf seek) i s).segment := eCA hdisj
  have hseekNone : s.inBrackets = false → seek = none := by
    intro hb
    cases hs : seek with
    | none => rfl
    | some ss =>
      exact absurd (hseekSt ss hs).2 (by rw [hb]; simp)
  unfold block4
  by_cases hterm : isTerminusOpt c = true
  · rw [if_pos hterm]
    by_cases hnb : (!s.inBrackets) = true
    · rw [if_pos hnb]
      have hb : s.inBrackets = false := by simpa using hnb
      refine Inv_endSegment hout hchain (hseekNone hb)
        (SegsWF_mono eWF (by omega)) eCh (fun _ => hCAE) ?_
      intro _ d
      rw [eFirst d]
      exact hstLo
    · rw [if_neg hnb]
      exact Inv_discard hout hchain hseek
  · rw [if_neg hterm]
    cases c with
    | none => simp [isTerminusOpt] at hterm
    | some ch =>
      simp only []
      have hchr : t[i]? = some ch := hc.symm
      by_cases hpr : (prev == some '@' || prev == some ':') = true
      · rw [if_pos hpr]
        by_cases ha : (alphaNumericB ch || ch == '_') = true
        · rw [if_pos ha]
          exact Inv_continue hout hchain hstLo hseek hseekSt eWF eCh eLast eNe
            eFirst (fun _ => hCAE) rfl (by decide) hchr (eSS.trans hseeking)
            eEnc (fun _ => hENC) eBr
        · rw [if_neg ha]
          by_cases hb : (ch == '\x7B') = true
          · rw [if_pos hb]
            exact Inv_continue hout hchain hstLo hseek hseekSt eWF eCh eLast
              eNe eFirst (fun _ => hCAE) rfl (by decide) hchr
              (eSS.trans hseeking) eEnc (fun _ => hENC) eBr
          · rw [if_neg hb]
            exact Inv_discard hout hchain hseek
      · rw [if_neg hpr]
        have hcurat : s.currentSegment.type ≠ SegmentType.atSign := by
          intro h
          obtain ⟨hv, hk⟩ := hatc h
          obtain ⟨h1, hp⟩ := at_prev hv hlen hslice
          refine hpr ?_
          have : prev = some '@' := by
            rw [hprev]
            have hi0 : (i == 0) = false := by
              simp only [beq_eq_false_iff_ne, ne_eq]
              omega
            rw [hi0]
            exact hp
          rw [this]
          simp
        have hCAs : containsAt s.segment := by
          rcases hdisj with h | h
          · exact h
          · exact absurd h hcurat
        by_cases hxk : (s.inExplicitKey && (ch != '\x7D')) = true
        · rw [if_pos hxk]
          by_cases hck : (s.currentSegment.type != SegmentType.key) = true
          · rw [if_pos hck]
            exact Inv_continue hout hchain hstLo hseek hseekSt eWF eCh eLast
              eNe eFirst (fun _ => hCAE) rfl (by decide) hchr
              (eSS.trans hseeking) eEnc (fun _ => hENC) eBr
          · rw [if_neg hck]
            exact Inv_append_val hout hchain hst hstLo hseek hseekSt hseeking
              hcurat (fun _ => hCAs) hchr
        · rw [if_neg hxk]
          by_cases hcb : (ch == '\x7D') = true
          · rw [if_pos hcb]
            by_cases hnb : (!s.inBrackets) = true
            · rw [if_pos hnb]
              have hb : s.inBrackets = false := by simpa using hnb
              refine Inv_continue_stale hout hchain hstLo hseek hseekSt hb
                ?_ ?_ ?_ ?_ ?_ rfl ?_ ?_ rfl
              · refine SegsWF_append (SegsWF_mono eWF (by omega)) ?_
                intro sg hsg
                rcases List.mem_cons.mp hsg with rfl | h'
                · refine ⟨⟨by simp [newCurrent], ?_⟩, by simp [newCurrent]⟩
                  simpa [newCurrent] using ((slice_one t i ch).mpr hchr).symm
                · cases h'
              · refine Chained_append eCh ⟨?_, trivial⟩
                rw [eLast]
                simp [newCurrent]
              · simp
              · intro d
                rw [firstFrom_append_of_ne_nil eNe d]
                exact eFirst d
              · exact containsAt_append_left hCAE
              · exact eEnc.trans hENC
              · exact eBr.trans hb
            · rw [if_neg hnb]
              exact Inv_continue hout hchain hstLo hseek hseekSt eWF eCh eLast
                eNe eFirst (fun _ => hCAE) rfl (by decide) hchr
                (eSS.trans hseeking) eEnc (fun h => nomatch h) eBr
          · rw [if_neg hcb]
            by_cases hob : (ch == '\x7B') = true
            · rw [if_pos hob]
              exact Inv_continue hout hchain hstLo hseek hseekSt eWF eCh eLast
                eNe eFirst (fun _ => hCAE) rfl (by decide) hchr
                (eSS.trans hseeking) eEnc (fun h => nomatch h) eBr
            · rw [if_neg hob]
              by_cases hal : alphaNumericB ch = true
              · rw [if_pos hal]
                exact Inv_append_val hout hchain hst hstLo hseek hseekSt
                  hseeking hcurat (fun _ => hCAs) hchr
              · rw [if_neg hal]
                by_cases hsp : spaceB ch = true
                · rw [if_pos hsp]
                  by_cases hnb : (!s.inBrackets) = true
                  · rw [if_pos hnb]
                    have hb : s.inBrackets = false := by simpa using hnb
                    refine Inv_continue_stale hout hchain hstLo hseek hseekSt
                      hb (SegsWF_mono eWF (by omega)) eCh eNe eFirst hCAE rfl
                      (eEnc.trans hENC) (eBr.trans hb) rfl
                  · rw [if_neg hnb]
                    exact Inv_continue hout hchain hstLo hseek hseekSt eWF eCh
                      eLast eNe eFirst (fun _ => hCAE) rfl (by decide) hchr
                      (eSS.trans hseeking) eEnc (fun h => nomatch h) eBr
                · rw [if_neg hsp]
                  by_cases hpu : punctB ch = true
                  · rw [if_pos hpu]
                    by_cases hnt : isTerminusOpt next = true
                    · rw [if_pos hnt]
                      by_cases hnb : (!s.inBrackets) = true
                      · rw [if_pos hnb]
                        have hb : s.inBrackets = false := by simpa using hnb
                        refine Inv_endSegment hout hchain (hseekNone hb)
                          (SegsWF_mono eWF (by omega)) eCh (fun _ => hCAE) ?_
                        intro _ d
                        rw [eFirst d]
                        exact hstLo
                      · rw [if_neg hnb]
                        exact Inv_discard hout hchain hseek
                    · rw [if_neg hnt]
                      by_cases hct : containsCiteType s.currentSegment.val = true
                      · rw [if_pos hct]
                        obtain ⟨fWF, fCh, fLast, fNe, fFirst, fCA, fBr, fKey,
                          fEK, fEL, fLk, fSfx, fSS, fEnc, fCS, fBD⟩ :=
                          endCurrent_inv t i (seekLocOf seek)
                            { s with currentSegment :=
                              { s.currentSegment with
                                type := SegmentType.citeType } }
                            hst.segsWF hst.chain hvne hlen hslice hlast
                        exact Inv_continue hout hchain hstLo hseek hseekSt fWF
                          fCh fLast fNe fFirst (fun _ => fCA (Or.inl hCAs))
                          rfl (by decide) hchr (fSS.trans hseeking) fEnc
                          (fun _ => hENC) fBr
                      · rw [if_neg hct]
                        by_cases hdp : punctOpt next = true
                        · rw [if_pos hdp]
                          by_cases hnb : (!s.inBrackets) = true
                          · rw [if_pos hnb]
                            have hb : s.inBrackets = false := by simpa using hnb
                            refine Inv_endSegment hout hchain (hseekNone hb)
                              (SegsWF_mono eWF (by omega)) eCh (fun _ => hCAE)
                              ?_
                            intro _ d
                            rw [eFirst d]
                            exact hstLo
                          · rw [if_neg hnb]
                            exact Inv_continue hout hchain hstLo hseek hseekSt
                              eWF eCh eLast eNe eFirst (fun _ => hCAE) rfl
                              (by decide) hchr (eSS.trans hseeking) eEnc
                              (fun h => nomatch h) eBr
                        · rw [if_neg hdp]
                          by_cases hsn : spaceOpt next = true
                          · rw [if_pos hsn]
                            by_cases hpk : (!s.inBrackets &&
                                postKeyPunctB ch) = true
                            · rw [if_pos hpk]
                              have hb : s.inBrackets = false := by
                                have := (Bool.and_eq_true .. |>.mp hpk).1
                                simpa using this
                              refine Inv_endSegment hout hchain (hseekNone hb)
                                (SegsWF_mono eWF (by omega)) eCh
                                (fun _ => hCAE) ?_
                              intro _ d
                              rw [eFirst d]
                              exact hstLo
                            · rw [if_neg hpk]
                              by_cases hnb : (!s.inBrackets) = true
                              · rw [if_pos hnb]
                                have hb : s.inBrackets = false := by
                                  simpa using hnb
                                refine Inv_endSegment hout hchain
                                  (hseekNone hb)
                                  (SegsWF_mono hst.segsWF (by omega))
                                  hst.chain (fun _ => hCAs) ?_
                                intro _ d
                                rw [firstFrom_eq_of_ne_nil
                                  (containsAt_ne_nil hCAs) d
                                  s.currentSegment.from']
                                exact hstLo
                              · rw [if_neg hnb]
                                exact Inv_continue hout hchain hstLo hseek
                                  hseekSt eWF eCh eLast eNe eFirst
                                  (fun _ => hCAE) rfl (by decide) hchr
                                  (eSS.trans hseeking) eEnc
                                  (fun h => nomatch h) eBr
                          · rw [if_neg hsn]
                            exact Inv_append_val hout hchain hst hstLo hseek
                              hseekSt hseeking hcurat (fun _ => hCAs) hchr
                  · rw [if_neg hpu]
                    by_cases hnb : (!s.inBrackets) = true
                    · rw [if_pos hnb]
                      have hb : s.inBrackets = false := by simpa using hnb
                      by_cases hnkp : nonKeyPunctB ch = true
                      · rw [if_pos hnkp]
                        refine Inv_endSegment hout hchain (hseekNone hb)
                          (SegsWF_mono eWF (by omega)) eCh (fun _ => hCAE) ?_
                        intro _ d
                        rw [eFirst d]
                        exact hstLo
                      · rw [if_neg hnkp]
                        exact Inv_discard hout hchain hseek
                    · rw [if_neg hnb]
                      refine block5_inv t ig i prev (some ch) next seek out s
                        hprev hc hout hchain hst hstLo hseek hseekSt hseeking
                        ?_
                      intro _ hor
                      refine hpr ?_
                      rcases hor with h | h
                      · rw [h]
                        simp
                      · rw [h]
                        simp

/-- The fresh-state shape: a state opened at `i` with an empty segment list
and a one-character current segment. -/
theorem Inv_fresh {t : List Char} {i : Nat} {seek : Option State}
    {out : List (List Segment)} {s' : State} {ch : Char} {τ : SegmentType}
    (hout : ∀ g ∈ out, SegsWF t i g ∧ Chained 0 g ∧ containsAt g)
    (hchain : GroupsChained 0 out)
    (hseek : ∀ ss, seek = some ss → SegsWF t i ss.segment ∧
      Chained 0 ss.segment ∧ containsAt ss.segment ∧
      (∀ d, outHi 0 out ≤ firstFrom d ss.segment))
    (hseekBrk : ∀ ss, seek = some ss → s'.inBrackets = true)
    (hseg : s'.segment = [])
    (hcur : s'.currentSegment = newCurrent i ch τ)
    (hchr : t[i]? = some ch)
    (hss : s'.seekingSuffix = false)
    (henc2 : s'.encounteredKey = true → τ = SegmentType.atSign)
    (hat : τ = SegmentType.atSign → ch = '@' ∧ s'.inKey = true)
    (hkey : s'.inKey = true → s'.encounteredKey = true) :
    Inv t (i + 1) ⟨some s', seek, out⟩ where
  groupsWF g hg := ⟨SegsWF_mono (hout g hg).1 (by omega), (hout g hg).2⟩
  groupsChain := hchain
  stInv s'' h := by
    cases h
    exact {
      segsWF := by
        rw [hseg]
        exact SegsWF_nil
      chain := by
        rw [hseg]
        trivial
      acc := fun _ => by
        rw [hcur, hseg]
        refine ⟨by simp [newCurrent], by simp [newCurrent], ?_, ?_, ?_⟩
        · simpa [newCurrent] using ((slice_one t i ch).mpr hchr).symm
        · simp only [newCurrent, lastTo]
          omega
        · intro hty
          simp only [newCurrent] at hty
          obtain ⟨rfl, hk⟩ := hat hty
          exact ⟨rfl, hk⟩
      encAt := fun he => Or.inr ⟨hss, by rw [hcur]; exact henc2 he⟩
      seekSufx := fun h2 => by rw [hss] at h2; cases h2
      keyEnc := hkey }
  stLoOk s'' h := by
    cases h
    show outHi 0 out ≤ stLo s'
    unfold stLo
    rw [hseg, hcur]
    show outHi 0 out ≤ i
    exact outHi_le (fun g hg => (hout g hg).1) (by omega)
  seekInv ss h := ⟨SegsWF_mono (hseek ss h).1 (by omega), (hseek ss h).2⟩
  seekSt ss s'' h h' := by
    cases h'
    refine ⟨?_, hseekBrk ss h⟩
    show lastTo 0 ss.segment ≤ stLo s'
    unfold stLo
    rw [hseg, hcur]
    show lastTo 0 ss.segment ≤ i
    exact lastTo_le (hseek ss h).1 (by omega)

/-- The `@`-continuation shape: an in-bracket state closes its current
segment and opens the `at` segment at `i`. -/
theorem Inv_atOpenCont {t : List Char} {i : Nat} {seek : Option State}
    {out : List (List Segment)} {s s' : State}
    (hout : ∀ g ∈ out, SegsWF t i g ∧ Chained 0 g ∧ containsAt g)
    (hchain : GroupsChained 0 out)
    (hstLo : outHi 0 out ≤ stLo s)
    (hseek : ∀ ss, seek = some ss → SegsWF t i ss.segment ∧
      Chained 0 ss.segment ∧ containsAt ss.segment ∧
      (∀ d, outHi 0 out ≤ firstFrom d ss.segment))
    (hseekSt : ∀ ss, seek = some ss →
      lastTo 0 ss.segment ≤ stLo s ∧ s.inBrackets = true)
    (hsegWF : SegsWF t i s'.segment) (hsegCh : Chained 0 s'.segment)
    (hsegLast : lastTo 0 s'.segment = i) (hsegNe : s'.segment ≠ [])
    (hsegFirst : ∀ d, firstFrom d s'.segment = stLo s)
    (hcur : s'.currentSegment = newCurrent i '@' SegmentType.atSign)
    (hchr : t[i]? = some '@')
    (hss : s'.seekingSuffix = false)
    (hkey : s'.inKey = true) (henc : s'.encounteredKey = true)
    (hbrk : s'.inBrackets = s.inBrackets) :
    Inv t (i + 1) ⟨some s', seek, out⟩ where
  groupsWF g hg := ⟨SegsWF_mono (hout g hg).1 (by omega), (hout g hg).2⟩
  groupsChain := hchain
  stInv s'' h := by
    cases h
    exact {
      segsWF := SegsWF_mono hsegWF (by omega)
      chain := hsegCh
      acc := fun _ => by
        rw [hcur]
        refine ⟨by simp [newCurrent], by simp [newCurrent], ?_, ?_, ?_⟩
        · simpa [newCurrent] using ((slice_one t i '@').mpr hchr).symm
        · simp only [newCurrent]
          omega
        · intro _
          exact ⟨rfl, hkey⟩
      encAt := fun _ => Or.inr ⟨hss, by rw [hcur]; rfl⟩
      seekSufx := fun h2 => by rw [hss] at h2; cases h2
      keyEnc := fun _ => henc }
  stLoOk s'' h := by
    cases h
    show outHi 0 out ≤ stLo s'
    unfold stLo
    rw [firstFrom_eq_of_ne_nil hsegNe s'.currentSegment.from' 0, hsegFirst 0]
    exact hstLo
  seekInv ss h := ⟨SegsWF_mono (hseek ss h).1 (by omega), (hseek ss h).2⟩
  seekSt ss s'' h h' := by
    cases h'
    have h1 : stLo s' = stLo s := by
      unfold stLo
      rw [firstFrom_eq_of_ne_nil hsegNe s'.currentSegment.from' 0, hsegFirst 0]
      rfl
    constructor
    · show lastTo 0 ss.segment ≤ stLo s'
      rw [h1]
      exact (hseekSt ss h).1
    · show s'.inBrackets = true
      rw [hbrk]
      exact (hseekSt ss h).2

theorem stepMain_inv (t : List Char) (ig : Bool) (i : Nat)
    (prev c next : Option Char) (cfg : Config)
    (hprev : prev = if i == 0 then none else t[i - 1]?)
    (hc : c = t[i]?)
    (hInv : Inv t i cfg) :
    ∀ cfg', stepMain prev c next ig i cfg = some cfg' →
      Inv t (i + 1) cfg' := by
  intro cfg' hstep
  obtain ⟨st, seek, out⟩ := cfg
  obtain ⟨hout, hchain, hstI, hstLo, hseekI, hseekSt⟩ := hInv
  unfold stepMain at hstep
  by_cases hat : (c == some '@' && isValidPreKey prev) = true
  · rw [if_pos hat] at hstep
    have hchAt : t[i]? = some '@' := by
      rw [← hc]
      have h1 := (Bool.and_eq_true .. |>.mp hat).1
      simpa using h1
    cases seek with
    | some ss =>
      cases st with
      | none => cases hstep
      | some s =>
        simp only [] at hstep
        have hbrt : s.inBrackets = true := (hseekSt ss s rfl rfl).2
        have hseeking : s.seekingSuffix = false := by
          cases hss2 : s.seekingSuffix
          · rfl
          · exact absurd hbrt
              (by rw [(((hstI s rfl).seekSufx hss2).2.2.1)]; simp)
        obtain ⟨hvne, hlen, hslice, hlast, _⟩ := (hstI s rfl).acc hseeking
        obtain ⟨ssWF, ssCh, ssCA, ssF⟩ := hseekI ss rfl
        by_cases hcs : s.shouldCancelSeek = true
        · rw [if_pos hcs] at hstep
          injection hstep with h'
          subst h'
          unfold atOpen
          simp only []
          rw [if_pos hbrt]
          obtain ⟨eWF, eCh, eLast, eNe, eFirst, eCA, eBr, eKey, eEK, eEL, eLk,
            eSfx, eSS, eEnc, eCS, eBD⟩ := endCurrent_inv t i (seekLocOf none)
              s (hstI s rfl).segsWF (hstI s rfl).chain hvne hlen hslice hlast
          have hout' : ∀ g ∈ out ++ [ss.segment],
              SegsWF t i g ∧ Chained 0 g ∧ containsAt g := by
            intro g hg
            rcases List.mem_append.mp hg with h | h
            · exact hout g h
            · rcases List.mem_singleton.mp h with rfl
              exact ⟨ssWF, ssCh, ssCA⟩
          have hchain' : GroupsChained 0 (out ++ [ss.segment]) :=
            GroupsChained_append hchain ssF
          have houtHi : outHi 0 (out ++ [ss.segment]) ≤ stLo s := by
            rw [outHi_append,
              lastTo_eq_of_ne_nil (containsAt_ne_nil ssCA) _ 0]
            exact (hseekSt ss s rfl rfl).1
          exact Inv_atOpenCont hout' hchain' houtHi (fun ss2 h => by cases h)
            (fun ss2 h => by cases h) eWF eCh eLast eNe eFirst rfl hchAt
            (eSS.trans hseeking) rfl rfl eBr
        · rw [if_neg hcs] at hstep
          injection hstep with h'
          subst h'
          unfold atOpen
          simp only []
          rw [if_pos hbrt]
          obtain ⟨eWF, eCh, eLast, eNe, eFirst, eCA, eBr, eKey, eEK, eEL, eLk,
            eSfx, eSS, eEnc, eCS, eBD⟩ := endCurrent_inv t i
              (seekLocOf (some ss)) s (hstI s rfl).segsWF (hstI s rfl).chain
              hvne hlen hslice hlast
          refine Inv_atOpenCont hout hchain (hstLo s rfl)
            (fun ss2 h => by cases h; exact hseekI ss rfl)
            (fun ss2 h => by cases h; exact ⟨(hseekSt ss s rfl rfl).1, hbrt⟩)
            eWF eCh eLast eNe eFirst rfl hchAt (eSS.trans hseeking) rfl rfl eBr
    | none =>
      cases st with
      | some s =>
        simp only [] at hstep
        injection hstep with h'
        subst h'
        unfold atOpen
        simp only []
        by_cases hbr : s.inBrackets = true
        · rw [if_pos hbr]
          have hseeking : s.seekingSuffix = false := by
            cases hss2 : s.seekingSuffix
            · rfl
            · exact absurd hbr
                (by rw [(((hstI s rfl).seekSufx hss2).2.2.1)]; simp)
          obtain ⟨hvne, hlen, hslice, hlast, _⟩ := (hstI s rfl).acc hseeking
          obtain ⟨eWF, eCh, eLast, eNe, eFirst, eCA, eBr, eKey, eEK, eEL, eLk,
            eSfx, eSS, eEnc, eCS, eBD⟩ := endCurrent_inv t i (seekLocOf none)
              s (hstI s rfl).segsWF (hstI s rfl).chain hvne hlen hslice hlast
          exact Inv_atOpenCont hout hchain (hstLo s rfl) (fun ss h => by cases h)
            (fun ss h => by cases h) eWF eCh eLast eNe eFirst rfl hchAt
            (eSS.trans hseeking) rfl rfl eBr
        · rw [if_neg hbr]
          exact Inv_fresh hout hchain (fun ss h => by cases h)
            (fun ss h => by cases h) rfl rfl hchAt rfl (fun _ => rfl)
            (fun _ => ⟨rfl, rfl⟩) (fun _ => rfl)
      | none =>
        simp only [] at hstep
        injection hstep with h'
        subst h'
        unfold atOpen
        simp only []
        exact Inv_fresh hout hchain (fun ss h => by cases h)
          (fun ss h => by cases h) rfl rfl hchAt rfl (fun _ => rfl)
          (fun _ => ⟨rfl, rfl⟩) (fun _ => rfl)
  · rw [if_neg hat] at hstep
    cases st with
    | none =>
      simp only [] at hstep
      injection hstep with h'
      subst h'
      exact Inv_discard hout hchain hseekI
    | some s =>
      simp only [] at hstep
      by_cases hsk2 : (s.seekingSuffix && !spaceOpt c) = true
      · rw [if_pos hsk2] at hstep
        injection hstep with h'
        subst h'
        have hss : s.seekingSuffix = true := (Bool.and_eq_true .. |>.mp hsk2).1
        obtain ⟨henc, hCA, hbrF, hkF⟩ := (hstI s rfl).seekSufx hss
        have hseekN : seek = none := by
          cases hs2 : seek with
          | none => rfl
          | some ss =>
            exact absurd (hseekSt ss s hs2 rfl).2 (by rw [hbrF]; simp)
        refine Inv_endSegment hout hchain hseekN
          (SegsWF_mono (hstI s rfl).segsWF (by omega)) (hstI s rfl).chain
          (fun _ => hCA) ?_
        intro _ d
        rw [firstFrom_eq_of_ne_nil (containsAt_ne_nil hCA) d
          s.currentSegment.from']
        exact hstLo s rfl
      · rw [if_neg hsk2] at hstep
        by_cases hik : s.inKey = true
        · rw [if_pos hik] at hstep
          injection hstep with h'
          subst h'
          exact block4_inv t ig i prev c next seek out s hprev hc hout hchain
            (hstI s rfl) (hstLo s rfl) hseekI (fun ss h => hseekSt ss s h rfl) hik
        · rw [if_neg hik] at hstep
          by_cases hib : s.inBrackets = true
          · rw [if_pos hib] at hstep
            injection hstep with h'
            subst h'
            have hseeking : s.seekingSuffix = false := by
              cases hss2 : s.seekingSuffix
              · rfl
              · exact absurd hib
                  (by rw [(((hstI s rfl).seekSufx hss2).2.2.1)]; simp)
            exact block5_inv t ig i prev c next seek out s hprev hc hout hchain
              (hstI s rfl) (hstLo s rfl) hseekI (fun ss h => hseekSt ss s h rfl)
              hseeking (fun h => absurd h hik)
          · rw [if_neg hib] at hstep
            by_cases hns : (!s.seekingSuffix) = true
            · rw [if_pos hns] at hstep
              injection hstep with h'
              subst h'
              exact Inv_discard hout hchain hseekI
            · rw [if_neg hns] at hstep
              injection hstep with h'
              subst h'
              have hss : s.seekingSuffix = true := by
                cases hss2 : s.seekingSuffix
                · rw [hss2] at hns
                  simp at hns
                · rfl
              obtain ⟨henc, hCA, hbrF, hkF⟩ := (hstI s rfl).seekSufx hss
              exact {
                groupsWF := fun g hg =>
                  ⟨SegsWF_mono (hout g hg).1 (by omega), (hout g hg).2⟩
                groupsChain := hchain
                stInv := fun s2 h => by
                  cases h
                  exact {
                    segsWF := SegsWF_mono (hstI s rfl).segsWF (by omega)
                    chain := (hstI s rfl).chain
                    acc := fun h2 => by rw [hss] at h2; cases h2
                    encAt := fun _ => Or.inl hCA
                    seekSufx := fun _ => ⟨henc, hCA, hbrF, hkF⟩
                    keyEnc := (hstI s rfl).keyEnc }
                stLoOk := fun s2 h => by
                  cases h
                  exact hstLo s rfl
                seekInv := fun ss h =>
                  ⟨SegsWF_mono (hseekI ss h).1 (by omega), (hseekI ss h).2⟩
                seekSt := fun ss s2 h h2 => by
                  cases h2
                  exact hseekSt ss s h rfl }

theorem step_inv (t : List Char) (ig : Bool) (i : Nat) (cfg : Config)
    (hInv : Inv t i cfg) :
    ∀ cfg', step t ig i cfg = some cfg' → Inv t (i + 1) cfg' := by
  intro cfg' hstep
  obtain ⟨st, seek, out⟩ := cfg
  obtain ⟨hout, hchain, hstI, hstLo, hseekI, hseekSt⟩ := hInv
  unfold step at hstep
  simp only [] at hstep
  by_cases hbr : (t[i]? == some '[') = true
  · rw [if_pos hbr] at hstep
    have hch : t[i]? = some '[' := by simpa using hbr
    by_cases h2 : (t[i + 1]? == some '[' && st.isNone) = true
    · rw [if_pos h2] at hstep
      injection hstep with h'
      subst h'
      have hstN : st = none := by
        cases st with
        | none => rfl
        | some s => simp at h2
      subst hstN
      exact Inv_discard hout hchain hseekI
    · rw [if_neg h2] at hstep
      cases st with
      | none =>
        simp only [] at hstep
        injection hstep with h'
        subst h'
        exact Inv_fresh hout hchain hseekI (fun ss h => rfl) rfl rfl hch rfl
          (fun he => nomatch he) (fun h => nomatch h) (fun hk => nomatch hk)
      | some s0 =>
        simp only [] at hstep
        by_cases hd :
            (({ s0 with bracketDepth := s0.bracketDepth + 1 } :
              State).bracketDepth == 1) = true
        · rw [if_pos hd] at hstep
          by_cases hsk :
              ({ s0 with bracketDepth := s0.bracketDepth + 1 } :
                State).seekingSuffix = true
          · rw [if_pos hsk] at hstep
            injection hstep with h'
            subst h'
            obtain ⟨henc0, hCA0, hbrF0, hkF0⟩ := (hstI s0 rfl).seekSufx hsk
            have hne0 : s0.segment ≠ [] := containsAt_ne_nil hCA0
            refine Inv_fresh hout hchain ?_ (fun ss h => rfl) rfl rfl hch rfl
              (fun he => nomatch he) (fun h => nomatch h) (fun hk => nomatch hk)
            intro ss h
            injection h with h
            subst h
            refine ⟨(hstI s0 rfl).segsWF, (hstI s0 rfl).chain, hCA0, ?_⟩
            intro d
            show outHi 0 out ≤ firstFrom d s0.segment
            rw [firstFrom_eq_of_ne_nil hne0 d s0.currentSegment.from']
            exact hstLo s0 rfl
          · rw [if_neg hsk] at hstep
            injection hstep with h'
            subst h'
            exact Inv_fresh hout hchain hseekI (fun ss h => rfl) rfl rfl hch rfl
              (fun he => nomatch he) (fun h => nomatch h) (fun hk => nomatch hk)
        · rw [if_neg hd] at hstep
          refine stepMain_inv t ig i _ _ _
            ⟨some { s0 with bracketDepth := s0.bracketDepth + 1 }, seek, out⟩
            rfl rfl ?_ cfg' hstep
          exact {
            groupsWF := hout
            groupsChain := hchain
            stInv := fun s2 h => by
              cases h
              exact {
                segsWF := (hstI s0 rfl).segsWF
                chain := (hstI s0 rfl).chain
                acc := (hstI s0 rfl).acc
                encAt := (hstI s0 rfl).encAt
                seekSufx := (hstI s0 rfl).seekSufx
                keyEnc := (hstI s0 rfl).keyEnc }
            stLoOk := fun s2 h => by
              cases h
              exact hstLo s0 rfl
            seekInv := hseekI
            seekSt := fun ss s2 h h2 => by
              cases h2
              exact hseekSt ss s0 h rfl }
  · rw [if_neg hbr] at hstep
    exact stepMain_inv t ig i _ _ _ ⟨st, seek, out⟩ rfl rfl
      ⟨hout, hchain, hstI, hstLo, hseekI, hseekSt⟩ cfg' hstep

theorem scanLoop_inv (t : List Char) (ig : Bool) (k : Nat) :
    ∀ (i : Nat) (cfg cfg' : Config), Inv t i cfg →
      scanLoop t ig (List.range' i k) cfg = some cfg' →
      Inv t (i + k) cfg' := by
  induction k with
  | zero =>
    intro i cfg cfg' hInv h
    injection h with h
    subst h
    exact hInv
  | succ k ih =>
    intro i cfg cfg' hInv h
    rw [List.range'_succ] at h
    unfold scanLoop at h
    cases hs : step t ig i cfg with
    | none =>
      rw [hs] at h
      cases h
    | some cfg1 =>
      rw [hs] at h
      have h1 := step_inv t ig i cfg hInv cfg1 hs
      have h2 := ih (i + 1) cfg1 cfg' h1 h
      have e : i + 1 + k = i + (k + 1) := by omega
      exact e ▸ h2

theorem getCitationSegments_wf (t : List Char) (ig : Bool)
    (res : List (List Segment))
    (h : getCitationSegments t ig = some res) :
    (∀ g ∈ res, SegsWF t (t.length + 1) g ∧ Chained 0 g ∧ containsAt g) ∧
      GroupsChained 0 res := by
  unfold getCitationSegments at h
  cases hs : scanLoop t ig (List.range (t.length + 1)) ⟨none, none, []⟩ with
  | none =>
    rw [hs] at h
    cases h
  | some cfgF =>
    rw [hs] at h
    injection h with h
    subst h
    have hInv0 : Inv t 0 ⟨none, none, []⟩ := {
      groupsWF := fun g hg => absurd hg (List.not_mem_nil g)
      groupsChain := trivial
      stInv := fun s h => by cases h
      stLoOk := fun s h => by cases h
      seekInv := fun ss h => by cases h
      seekSt := fun ss s h => by cases h }
    rw [List.range_eq_range'] at hs
    have hF := scanLoop_inv t ig (t.length + 1) 0 _ cfgF hInv0 hs
    have e : 0 + (t.length + 1) = t.length + 1 := by omega
    rw [e] at hF
    obtain ⟨hout, hchain, hstI, hstLo, _, _⟩ := hF
    unfold finishConfig
    cases hstF : cfgF.st with
    | none => exact ⟨hout, hchain⟩
    | some s =>
      simp only []
      by_cases hsk : s.seekingSuffix = true
      · rw [if_pos hsk]
        obtain ⟨henc, hCA, _, _⟩ := (hstI s hstF).seekSufx hsk
        have hne : s.segment ≠ [] := containsAt_ne_nil hCA
        have hfirst : ∀ d, outHi 0 cfgF.out ≤ firstFrom d s.segment := by
          intro d
          rw [firstFrom_eq_of_ne_nil hne d s.currentSegment.from']
          exact hstLo s hstF
        refine ⟨?_, GroupsChained_append hchain hfirst⟩
        intro g hg
        rcases List.mem_append.mp hg with h1 | h1
        · exact hout g h1
        · rcases List.mem_singleton.mp h1 with rfl
          exact ⟨(hstI s hstF).segsWF, (hstI s hstF).chain, hCA⟩
      · rw [if_neg hsk]
        exact ⟨hout, hchain⟩

/-! ### Helper lemmas for the claim theorems -/

/-- Gap-free tiling: each segment starts exactly where the previous ended. -/
def Tiled : Nat → List Segment → Prop
  | _, [] => True
  | a, s :: rest => s.from' = a ∧ Tiled s.to' rest

theorem slice_append (t : List Char) {a m b : Nat} (h1 : a ≤ m) (h2 : m ≤ b) :
    slice t a m ++ slice t m b = slice t a b := by
  unfold slice
  rw [show b - a = (m - a) + (b - m) by omega, List.take_add]
  have hd : (t.drop a).drop (m - a) = t.drop m := by
    rw [List.drop_drop]
    congr 1
    omega
  rw [hd]

theorem lastTo_ge {t : List Char} {i : Nat} :
    ∀ {l : List Segment} {d : Nat}, SegsWF t i l → Chained d l →
      d ≤ lastTo d l
  | [], d, _, _ => le_refl d
  | s :: rest, d, hWF, hch => by
    have h1 := (hWF s (List.mem_cons_self s rest)).1.1
    have h2 : d ≤ s.from' := hch.1
    have h3 := lastTo_ge (t := t) (i := i)
      (fun x hx => hWF x (List.mem_cons_of_mem s hx)) hch.2
    show d ≤ lastTo s.to' rest
    omega

theorem tiled_flatten {t : List Char} {i : Nat} :
    ∀ (l : List Segment) (a : Nat), SegsWF t i l → Chained a l → Tiled a l →
      (l.map Segment.val).flatten = slice t a (lastTo a l)
  | [], a, _, _, _ => by
    show ([] : List Char) = (t.drop a).take (a - a)
    rw [Nat.sub_self]
    rfl
  | s :: rest, a, hWF, hch, htl => by
    have hsWF := (hWF s (List.mem_cons_self s rest)).1
    have hWF' : SegsWF t i rest := fun x hx => hWF x (List.mem_cons_of_mem s hx)
    have ih := tiled_flatten rest s.to' hWF' hch.2 htl.2
    show s.val ++ (rest.map Segment.val).flatten = slice t a (lastTo s.to' rest)
    rw [ih, hsWF.2, htl.1]
    exact slice_append t (by have h4 := hsWF.1; have h5 := htl.1; omega)
      (lastTo_ge hWF' hch.2)

/-- The group part of a rendered citation. -/
def projGroup (r : RenderedCitation) : CitationGroup :=
  ⟨r.data, r.citations, r.from', r.to'⟩

theorem renderCrossrefGo_proj (label : Option (List Char))
    (l : List CitationGroup) :
    (renderCrossrefGo label l).map projGroup = l := by
  induction l generalizing label with
  | nil => rfl
  | cons g rest ih =>
    unfold renderCrossrefGo
    simp only []
    rw [List.map_cons]
    congr 1
    exact ih _

theorem renderCrossrefGo_label (label : Option (List Char))
    (l : List CitationGroup) :
    ∀ (i : Nat) (g : CitationGroup) (r : RenderedCitation) (c0 : Citation)
      (lab : List Char),
      l[i]? = some g → (renderCrossrefGo label l)[i]? = some r →
      g.citations.head? = some c0 →
      crossrefLabelOf c0.citeType g.citations.length = some lab →
      r.val = "[".data ++ lab ++ joinIds g.citations ++ "]".data := by
  induction l generalizing label with
  | nil =>
    intro i g r c0 lab hg
    rw [List.getElem?_nil] at hg
    cases hg
  | cons g0 rest ih =>
    intro i g r c0 lab hg hr hc0 hlab
    cases i with
    | zero =>
      rw [List.getElem?_cons_zero] at hg
      injection hg with hg
      subst hg
      unfold renderCrossrefGo at hr
      simp only [] at hr
      rw [List.getElem?_cons_zero] at hr
      injection hr with hr
      subst hr
      show "[".data ++ _ ++ _ ++ "]".data = _
      rw [hc0]
      simp only []
      rw [hlab]
      rfl
    | succ n =>
      rw [List.getElem?_cons_succ] at hg
      unfold renderCrossrefGo at hr
      simp only [] at hr
      rw [List.getElem?_cons_succ] at hr
      exact ih _ n g r c0 lab hg hr hc0 hlab

theorem citeFold_mem (locale : List Char) (segs : List Segment) :
    ∀ (i : Nat) (a : CiteAcc) (cs : List Citation) (c : Citation),
      c ∈ citeFold locale segs i a cs →
      c ∈ cs ∨ ∃ a2, c = pushCite locale a2 := by
  induction segs with
  | nil =>
    intro i a cs c h
    unfold citeFold at h
    rcases List.mem_append.mp h with h | h
    · exact Or.inl h
    · exact Or.inr ⟨a, List.mem_singleton.mp h⟩
  | cons seg rest ih =>
    intro i a cs c h
    unfold citeFold at h
    split at h <;> (try split at h) <;>
      first
        | exact ih _ _ _ c h
        | (rcases ih _ _ _ c h with h1 | h1
           · rcases List.mem_append.mp h1 with h2 | h2
             · exact Or.inl h2
             · exact Or.inr ⟨_, List.mem_singleton.mp h2⟩
           · exact Or.inr h1)

theorem pushCite_flags (locale : List Char) (a : CiteAcc) :
    ((pushCite locale a).composite = true →
      (pushCite locale a).suppressAuthor = false ∧
      (pushCite locale a).authorOnly = false) ∧
    ((pushCite locale a).suppressAuthor = true →
      (pushCite locale a).authorOnly = false) := by
  unfold pushCite
  simp only []
  cases a.composite <;> cases a.suppressAuthor <;> cases a.onlyAuthor <;> simp

theorem citeFold_ne_nil (locale : List Char) (segs : List Segment) :
    ∀ (i : Nat) (a : CiteAcc) (cs : List Citation),
      citeFold locale segs i a cs ≠ [] := by
  induction segs with
  | nil =>
    intro i a cs
    unfold citeFold
    simp
  | cons seg rest ih =>
    intro i a cs
    unfold citeFold
    split <;> (try split) <;> exact ih _ _ _

theorem citeFold_id_none (locale : List Char) (segs : List Segment) :
    ∀ (i : Nat) (a : CiteAcc) (cs : List Citation),
      (∀ s ∈ segs, s.type ≠ SegmentType.key) → a.key = none →
      (∀ c ∈ cs, c.id = none) →
      ∀ c ∈ citeFold locale segs i a cs, c.id = none := by
  induction segs with
  | nil =>
    intro i a cs _ ha hcs c hc
    unfold citeFold at hc
    rcases List.mem_append.mp hc with h | h
    · exact hcs c h
    · rcases List.mem_singleton.mp h with rfl
      exact ha
  | cons seg rest ih =>
    intro i a cs hno ha hcs c hc
    have hno2 : ∀ s ∈ rest, s.type ≠ SegmentType.key :=
      fun s hs => hno s (List.mem_cons_of_mem seg hs)
    unfold citeFold at hc
    split at hc <;> (try split at hc) <;>
      first
        | exact absurd (by assumption) (hno seg (List.mem_cons_self seg rest))
        | (refine ih _ _ _ hno2 ?_ hcs c hc
           exact ha)
        | (refine ih _ _ _ hno2 ?_ ?_ c hc
           · exact ha
           · intro c2 hc2
             rcases List.mem_append.mp hc2 with h | h
             · exact hcs c2 h
             · rcases List.mem_singleton.mp h with rfl
               exact ha)

/-- The value of the last segment of a given type (the aggregator's
last-assignment-wins accumulation), `none` when there is none. -/
def lastValOf (τ : SegmentType) : List Segment → Option (List Char)
  | [] => none
  | s :: rest =>
    (lastValOf τ rest).or (if s.type == τ then some s.val else none)

theorem opt_or_none {α : Type} (x : Option α) : x.or none = x := by
  cases x <;> rfl

theorem lastValOf_cons_ne {τ : SegmentType} {seg : Segment}
    (rest : List Segment) (h : (seg.type == τ) = false) :
    lastValOf τ (seg :: rest) = lastValOf τ rest := by
  rw [lastValOf, h, if_neg (by simp : ¬(false = true))]
  exact opt_or_none _

theorem lastValOf_cons_eq {τ : SegmentType} {seg : Segment}
    (rest : List Segment) (h : (seg.type == τ) = true) :
    lastValOf τ (seg :: rest) = (lastValOf τ rest).or (some seg.val) := by
  rw [lastValOf, h, if_pos rfl]

theorem opt_or_assoc {α : Type} (x y z : Option α) :
    (x.or y).or z = x.or (y.or z) := by
  cases x <;> rfl

theorem citeFold_single (locale : List Char) (segs : List Segment) :
    ∀ (i : Nat) (a : CiteAcc) (cs : List Citation),
      (∀ s ∈ segs, s.type ≠ SegmentType.separator ∧
        s.type ≠ SegmentType.suppressor) →
      ∃ a2, citeFold locale segs i a cs = cs ++ [pushCite locale a2] ∧
        a2.key = (lastValOf SegmentType.key segs).or a.key ∧
        a2.locator = (lastValOf SegmentType.locator segs).or a.locator ∧
        a2.label = (lastValOf SegmentType.locatorLabel segs).or a.label := by
  induction segs with
  | nil =>
    intro i a cs _
    exact ⟨a, rfl, rfl, rfl, rfl⟩
  | cons seg rest ih =>
    intro i a cs hno
    have hno2 := fun s hs => hno s (List.mem_cons_of_mem seg hs)
    have hsep := (hno seg (List.mem_cons_self seg rest)).1
    have hsup := (hno seg (List.mem_cons_self seg rest)).2
    unfold citeFold
    cases hty : seg.type with
    | separator => exact absurd hty hsep
    | suppressor => exact absurd hty hsup
    | atSign =>
      simp only []
      obtain ⟨a2, he, hk, hl, hb⟩ :=
        ih (i + 1) (if (i == 0 : Bool) then { a with composite := true } else a)
          cs hno2
      refine ⟨a2, he, ?_, ?_, ?_⟩
      · rw [hk, show (if (i == 0 : Bool) then { a with composite := true }
            else a).key = a.key by split <;> rfl,
          lastValOf_cons_ne rest (by rw [hty]; decide)]
      · rw [hl, show (if (i == 0 : Bool) then { a with composite := true }
            else a).locator = a.locator by split <;> rfl,
          lastValOf_cons_ne rest (by rw [hty]; decide)]
      · rw [hb, show (if (i == 0 : Bool) then { a with composite := true }
            else a).label = a.label by split <;> rfl,
          lastValOf_cons_ne rest (by rw [hty]; decide)]
    | key =>
      simp only []
      obtain ⟨a2, he, hk, hl, hb⟩ :=
        ih (i + 1) { a with key := some seg.val } cs hno2
      refine ⟨a2, he, ?_, ?_, ?_⟩
      · rw [hk, show ({ a with key := some seg.val } : CiteAcc).key =
            some seg.val from rfl,
          lastValOf_cons_eq rest (by rw [hty]; decide), opt_or_assoc]
        rfl
      · rw [hl, show ({ a with key := some seg.val } : CiteAcc).locator =
            a.locator from rfl,
          lastValOf_cons_ne rest (by rw [hty]; decide)]
      · rw [hb, show ({ a with key := some seg.val } : CiteAcc).label =
            a.label from rfl,
          lastValOf_cons_ne rest (by rw [hty]; decide)]
    | locator =>
      simp only []
      obtain ⟨a2, he, hk, hl, hb⟩ :=
        ih (i + 1) { a with locator := some seg.val } cs hno2
      refine ⟨a2, he, ?_, ?_, ?_⟩
      · rw [hk, show ({ a with locator := some seg.val } : CiteAcc).key =
            a.key from rfl,
          lastValOf_cons_ne rest (by rw [hty]; decide)]
      · rw [hl, show ({ a with locator := some seg.val } : CiteAcc).locator =
            some seg.val from rfl,
          lastValOf_cons_eq rest (by rw [hty]; decide), opt_or_assoc]
        rfl
      · rw [hb, show ({ a with locator := some seg.val } : CiteAcc).label =
            a.label from rfl,
          lastValOf_cons_ne rest (by rw [hty]; decide)]
    | locatorLabel =>
      simp only []
      obtain ⟨a2, he, hk, hl, hb⟩ :=
        ih (i + 1) { a with label := some seg.val } cs hno2
      refine ⟨a2, he, ?_, ?_, ?_⟩
      · rw [hk, show ({ a with label := some seg.val } : CiteAcc).key =
            a.key from rfl,
          lastValOf_cons_ne rest (by rw [hty]; decide)]
      · rw [hl, show ({ a with label := some seg.val } : CiteAcc).locator =
            a.locator from rfl,
          lastValOf_cons_ne rest (by rw [hty]; decide)]
      · rw [hb, show ({ a with label := some seg.val } : CiteAcc).label =
            some seg.val from rfl,
          lastValOf_cons_eq rest (by rw [hty]; decide), opt_or_assoc]
        rfl
    | pre =>
      simp only []
      obtain ⟨a2, he, hk, hl, hb⟩ :=
        ih (i + 1) { a with pre := some seg.val } cs hno2
      refine ⟨a2, he, ?_, ?_, ?_⟩
      · rw [hk, lastValOf_cons_ne rest (by rw [hty]; decide)]
      · rw [hl, lastValOf_cons_ne rest (by rw [hty]; decide)]
      · rw [hb, lastValOf_cons_ne rest (by rw [hty]; decide)]
    | suffix =>
      simp only []
      obtain ⟨a2, he, hk, hl, hb⟩ :=
        ih (i + 1) { a with suf := some seg.val } cs hno2
      refine ⟨a2, he, ?_, ?_, ?_⟩
      · rw [hk, lastValOf_cons_ne rest (by rw [hty]; decide)]
      · rw [hl, lastValOf_cons_ne rest (by rw [hty]; decide)]
      · rw [hb, lastValOf_cons_ne rest (by rw [hty]; decide)]
    | litNote =>
      simp only []
      obtain ⟨a2, he, hk, hl, hb⟩ :=
        ih (i + 1) { a with litNote := some seg.val, composite := true } cs hno2
      refine ⟨a2, he, ?_, ?_, ?_⟩
      · rw [hk, lastValOf_cons_ne rest (by rw [hty]; decide)]
      · rw [hl, lastValOf_cons_ne rest (by rw [hty]; decide)]
      · rw [hb, lastValOf_cons_ne rest (by rw [hty]; decide)]
    | citeType =>
      simp only []
      obtain ⟨a2, he, hk, hl, hb⟩ :=
        ih (i + 1) { a with citeType := some seg.val } cs hno2
      refine ⟨a2, he, ?_, ?_, ?_⟩
      · rw [hk, lastValOf_cons_ne rest (by rw [hty]; decide)]
      · rw [hl, lastValOf_cons_ne rest (by rw [hty]; decide)]
      · rw [hb, lastValOf_cons_ne rest (by rw [hty]; decide)]
    | curlyBracket =>
      simp only []
      obtain ⟨a2, he, hk, hl, hb⟩ := ih (i + 1) a cs hno2
      refine ⟨a2, he, ?_, ?_, ?_⟩
      · rw [hk, lastValOf_cons_ne rest (by rw [hty]; decide)]
      · rw [hl, lastValOf_cons_ne rest (by rw [hty]; decide)]
      · rw [hb, lastValOf_cons_ne rest (by rw [hty]; decide)]
    | bracket =>
      simp only []
      obtain ⟨a2, he, hk, hl, hb⟩ := ih (i + 1) a cs hno2
      refine ⟨a2, he, ?_, ?_, ?_⟩
      · rw [hk, lastValOf_cons_ne rest (by rw [hty]; decide)]
      · rw [hl, lastValOf_cons_ne rest (by rw [hty]; decide)]
      · rw [hb, lastValOf_cons_ne rest (by rw [hty]; decide)]
    | locatorSuffix =>
      simp only []
      obtain ⟨a2, he, hk, hl, hb⟩ := ih (i + 1) a cs hno2
      refine ⟨a2, he, ?_, ?_, ?_⟩
      · rw [hk, lastValOf_cons_ne rest (by rw [hty]; decide)]
      · rw [hl, lastValOf_cons_ne rest (by rw [hty]; decide)]
      · rw [hb, lastValOf_cons_ne rest (by rw [hty]; decide)]
    | linkSeparator =>
      simp only []
      obtain ⟨a2, he, hk, hl, hb⟩ := ih (i + 1) a cs hno2
      refine ⟨a2, he, ?_, ?_, ?_⟩
      · rw [hk, lastValOf_cons_ne rest (by rw [hty]; decide)]
      · rw [hl, lastValOf_cons_ne rest (by rw [hty]; decide)]
      · rw [hb, lastValOf_cons_ne rest (by rw [hty]; decide)]
    | typeSeparator =>
      simp only []
      obtain ⟨a2, he, hk, hl, hb⟩ := ih (i + 1) a cs hno2
      refine ⟨a2, he, ?_, ?_, ?_⟩
      · rw [hk, lastValOf_cons_ne rest (by rw [hty]; decide)]
      · rw [hl, lastValOf_cons_ne rest (by rw [hty]; decide)]
      · rw [hb, lastValOf_cons_ne rest (by rw [hty]; decide)]

/-! ### The claims -/

/-- The single group the scanner emits for the input `"@"`. -/
def atOnlyGroup : List Segment := [⟨SegmentType.atSign, 0, 1, ['@']⟩]

/-- C1, counterexample: the input `"@"` (a lone `@` at end of input) emits
the group `[at]`, which has no `key` segment — `endSegment` only checks
`encounteredKey`, which the `@` branch already set. -/
theorem C1_counterexample :
    getCitationSegments "@".data false = some [atOnlyGroup] ∧
    (∀ s ∈ atOnlyGroup, s.type ≠ SegmentType.key) := by
  refine ⟨rfl, by decide⟩

/-- C1, amended: every group emitted by the Segmenter
(`getCitationSegments`) contains at least one segment of type `at` (the
claim's "at least one `key` segment" is false; the lone-`@` input emits a
keyless group). -/
theorem C1_amended (t : List Char) (ig : Bool) (res : List (List Segment))
    (h : getCitationSegments t ig = some res) :
    ∀ g ∈ res, containsAt g :=
  fun g hg => ((getCitationSegments_wf t ig res h).1 g hg).2.2

/-- C1, witness: the amended theorem at the concrete input `"@"`. -/
theorem C1_amended_witness :
    getCitationSegments "@".data false = some [atOnlyGroup] ∧
    (∀ g ∈ [atOnlyGroup], containsAt g) :=
  ⟨rfl, C1_amended "@".data false [atOnlyGroup] rfl⟩

/-- The merged bare-plus-bracket group the scanner emits for
`"@key [z]"`: the whitespace between `key` and `[` is spanned by no
segment. -/
def mergedGroup : List Segment :=
  [⟨SegmentType.atSign, 0, 1, ['@']⟩,
   ⟨SegmentType.key, 1, 4, "key".data⟩,
   ⟨SegmentType.bracket, 5, 6, ['[']⟩,
   ⟨SegmentType.suffix, 6, 7, ['z']⟩,
   ⟨SegmentType.bracket, 7, 8, [']']⟩]

/-- C2, counterexample: for the merged group of `"@key [z]"`, concatenating
the `val` fields skips the gap whitespace, so it is not the substring
between the group's first `from` and last `to`. -/
theorem C2_counterexample :
    getCitationSegments "@key [z]".data false = some [mergedGroup] ∧
    (mergedGroup.map Segment.val).flatten ≠
      slice "@key [z]".data (firstFrom 0 mergedGroup) (lastTo 0 mergedGroup) := by
  refine ⟨rfl, by decide⟩

/-- C2, amended: in every emitted group each segment's `val` is exactly the
spanned substring, and whenever the group's segments tile its span without
gaps (which merged bare-plus-bracket groups violate), the concatenation of
the `val` fields is exactly the substring from the group's first `from` to
its last `to`. -/
theorem C2_amended (t : List Char) (ig : Bool) (res : List (List Segment))
    (h : getCitationSegments t ig = some res) :
    ∀ g ∈ res, (∀ s ∈ g, s.val = slice t s.from' s.to') ∧
      (Tiled (firstFrom 0 g) g →
        (g.map Segment.val).flatten =
          slice t (firstFrom 0 g) (lastTo 0 g)) := by
  intro g hg
  obtain ⟨hWF, hch, _⟩ := (getCitationSegments_wf t ig res h).1 g hg
  refine ⟨fun s hs => (hWF s hs).1.2, fun htl => ?_⟩
  have hch2 : Chained (firstFrom 0 g) g := by
    cases g with
    | nil => trivial
    | cons s rest => exact ⟨le_refl s.from', hch.2⟩
  have heq := tiled_flatten g (firstFrom 0 g) hWF hch2 htl
  have hlt : lastTo (firstFrom 0 g) g = lastTo 0 g := by
    cases g with
    | nil => rfl
    | cons s rest => exact lastTo_eq_of_ne_nil (List.cons_ne_nil s rest) _ 0
  rw [heq, hlt]

/-- C2, witness: the amended theorem at the concrete input `"@"`, whose one
group is gap-free. -/
theorem C2_amended_witness :
    getCitationSegments "@".data false = some [atOnlyGroup] ∧
    (∀ g ∈ [atOnlyGroup], (∀ s ∈ g, s.val = slice "@".data s.from' s.to') ∧
      (Tiled (firstFrom 0 g) g →
        (g.map Segment.val).flatten =
          slice "@".data (firstFrom 0 g) (lastTo 0 g))) :=
  ⟨rfl, C2_amended "@".data false [atOnlyGroup] rfl⟩

/-- C3: every emitted segment satisfies `from < to`, within each group the
segments are chained (sorted and pairwise non-overlapping), and consecutive
groups' spans do not overlap. -/
theorem C3 (t : List Char) (ig : Bool) (res : List (List Segment))
    (h : getCitationSegments t ig = some res) :
    (∀ g ∈ res, (∀ s ∈ g, s.from' < s.to') ∧ Chained 0 g) ∧
      GroupsChained 0 res := by
  obtain ⟨h1, h2⟩ := getCitationSegments_wf t ig res h
  exact ⟨fun g hg => ⟨fun s hs => ((h1 g hg).1 s hs).1.1, (h1 g hg).2.1⟩, h2⟩

/-- C3, witness: the theorem at the concrete input `"@key [z]"`. -/
theorem C3_witness :
    getCitationSegments "@key [z]".data false = some [mergedGroup] ∧
    ((∀ g ∈ [mergedGroup], (∀ s ∈ g, s.from' < s.to') ∧ Chained 0 g) ∧
      GroupsChained 0 [mergedGroup]) :=
  ⟨rfl, C3 "@key [z]".data false [mergedGroup] rfl⟩

/-- A group whose first citation has no crossref citeType while its second
is typed `fig`. -/
def mixedGroup : CitationGroup :=
  ⟨[], [{ id := some "a".data },
        { id := some "b".data, citeType := some "fig".data }], 0, 0⟩

/-- C4, counterexample: the renderer's filter tests whether *some* citation
of the group passes the `citeTypes` test, so `mixedGroup` — whose *first*
citation has no matching citeType — is still returned (with the undefined
label), contradicting "a group whose first citation has no such citeType is
not returned". -/
theorem C4_counterexample :
    mixedGroup.citations.head? = some { id := some "a".data } ∧
    citeTypeTest ({ id := some "a".data } : Citation).citeType = false ∧
    renderCrossrefType [mixedGroup] =
      [⟨[], mixedGroup.citations, 0, 0, "[undefineda, b]".data⟩] := by
  refine ⟨rfl, rfl, by decide⟩

/-- C4, amended: the Crossref Renderer returns exactly the groups in which
*some* citation's citeType passes the `fig|tbl|eq|sec` substring test, one
rendered citation per kept group, preserving the group's data, citations
and span. -/
theorem C4_amended (groups : List CitationGroup) :
    (renderCrossrefType groups).map projGroup =
      groups.filter
        (fun g => g.citations.any (fun c => citeTypeTest c.citeType)) :=
  renderCrossrefGo_proj none _

/-- The segments the scanner emits for `"[@doe2020]"`. -/
def doeSegs : List Segment :=
  [⟨SegmentType.bracket, 0, 1, ['[']⟩,
   ⟨SegmentType.atSign, 1, 2, ['@']⟩,
   ⟨SegmentType.key, 2, 9, "doe2020".data⟩,
   ⟨SegmentType.bracket, 9, 10, [']']⟩]

/-- C5, counterexample: in `"[@doe2020]"` the `at` segment is at index 1 of
the group (after the opening bracket segment), so the aggregator's
`i === 0` composite rule does not fire: the citation's `composite` flag is
`false`, not `true` as claimed. -/
theorem C5_counterexample :
    getCitationSegments "[@doe2020]".data false = some [doeSegs] ∧
    (getCitations doeSegs "en-US".data).citations =
      [{ id := some "doe2020".data }] ∧
    ({ id := some "doe2020".data } : Citation).composite = false := by
  refine ⟨rfl, by decide, rfl⟩

/-- C5, amended: running the Segmenter then the Aggregator on `"[@doe2020]"`
yields exactly one group whose citations list is exactly
`[{id := doe2020}]` with no flags set (the `at` segment of a bracketed
citation sits at index 1, so `composite` is not set; it is set only for a
bare citation whose `at` is the group's first segment). -/
theorem C5_amended :
    getCitationSegments "[@doe2020]".data false = some [doeSegs] ∧
    getCitations doeSegs "en-US".data =
      { data := doeSegs
        citations := [{ id := some "doe2020".data }]
        from' := 0
        to' := 10 } := by
  refine ⟨rfl, by decide⟩

/-- A kept group with one citation typed `figs`: it passes the substring
filter but matches no case of the label `switch`. -/
def figsGroup : CitationGroup :=
  ⟨[], [{ id := some "a".data, citeType := some "figs".data }], 0, 0⟩

/-- C6, counterexample: the `figs` group is rendered as `"[undefineda]"` —
the `label` variable is stale/undefined when the switch matches no case —
which is none of the claimed `[<Figure|Table|Equation|Section> ids]`
forms. -/
theorem C6_counterexample :
    renderCrossrefType [figsGroup] =
      [⟨[], figsGroup.citations, 0, 0, "[undefineda]".data⟩] ∧
    "[undefineda]".data ≠ "[Figure a]".data ∧
    "[undefineda]".data ≠ "[Table a]".data ∧
    "[undefineda]".data ≠ "[Equation a]".data ∧
    "[undefineda]".data ≠ "[Section a]".data := by
  refine ⟨by decide, by decide, by decide, by decide, by decide⟩

/-- C6, amended: when the `i`-th kept group's *first* citation's citeType
selects a crossref label exactly (`fig`/`eq`/`tbl`/`sec`, singular for one
citation and plural for more), the `i`-th rendered citation's `val` is that
label followed by the comma-joined citation ids, wrapped in square
brackets. -/
theorem C6_amended (groups : List CitationGroup) (i : Nat)
    (g : CitationGroup) (r : RenderedCitation) (c0 : Citation)
    (lab : List Char)
    (hg : (groups.filter
      (fun g => g.citations.any (fun c => citeTypeTest c.citeType)))[i]? =
        some g)
    (hr : (renderCrossrefType groups)[i]? = some r)
    (hc0 : g.citations.head? = some c0)
    (hlab : crossrefLabelOf c0.citeType g.citations.length = some lab) :
    r.val = "[".data ++ lab ++ joinIds g.citations ++ "]".data :=
  renderCrossrefGo_label none _ i g r c0 lab hg hr hc0 hlab

/-- The segments the scanner emits for `"[@fig:plot1]"`. -/
def figPlotSegs : List Segment :=
  [⟨SegmentType.bracket, 0, 1, ['[']⟩,
   ⟨SegmentType.atSign, 1, 2, ['@']⟩,
   ⟨SegmentType.citeType, 2, 5, "fig".data⟩,
   ⟨SegmentType.typeSeparator, 5, 6, [':']⟩,
   ⟨SegmentType.key, 6, 11, "plot1".data⟩,
   ⟨SegmentType.bracket, 11, 12, [']']⟩]

/-- The group the aggregator builds from the `"[@fig:plot1]"` segments. -/
def figPlotGroup : CitationGroup := getCitations figPlotSegs "en-US".data

/-- The citation the renderer produces for the `"[@fig:plot1]"` group. -/
def figPlotRendered : RenderedCitation :=
  ⟨figPlotSegs, figPlotGroup.citations, 0, 12, "[Figure plot1]".data⟩

/-- C6, witness: the full `"[@fig:plot1]"` pipeline; its rendered `val` is
`"[Figure plot1]"`, and the amended theorem applied at this concrete input
gives it the `[Figure ids]` form. -/
theorem C6_amended_witness :
    getCitationSegments "[@fig:plot1]".data false = some [figPlotSegs] ∧
    renderCrossrefType [figPlotGroup] = [figPlotRendered] ∧
    figPlotRendered.val = "[Figure plot1]".data ∧
    figPlotRendered.val =
      "[".data ++ "Figure ".data ++ joinIds figPlotGroup.citations ++
        "]".data :=
  ⟨rfl, by decide, rfl,
   C6_amended [figPlotGroup] 0 figPlotGroup figPlotRendered
     { id := some "plot1".data, citeType := some "fig".data }
     "Figure ".data (by decide) (by decide) (by decide) (by decide)⟩

/-- C7, counterexample: a plain citation (no at/suppressor/litNote context)
has none of the three flags set, so "exactly one of the three flags is set"
fails. -/
theorem C7_counterexample :
    (getCitations [⟨SegmentType.key, 0, 7, "doe2020".data⟩]
        "en-US".data).citations = [{ id := some "doe2020".data }] ∧
    ({ id := some "doe2020".data } : Citation).composite = false ∧
    ({ id := some "doe2020".data } : Citation).suppressAuthor = false ∧
    ({ id := some "doe2020".data } : Citation).authorOnly = false := by
  refine ⟨by decide, rfl, rfl, rfl⟩

/-- C7, amended: at most one of `composite`, `suppress-author`,
`author-only` is set on any citation the Aggregator produces (the
`if / else if / else if` chain of `push()` makes them mutually exclusive,
but a plain citation sets none of them). -/
theorem C7_amended (locale : List Char) (segments : List Segment) :
    ∀ c ∈ (getCitations segments locale).citations,
      (c.composite = true → c.suppressAuthor = false ∧ c.authorOnly = false) ∧
      (c.suppressAuthor = true → c.authorOnly = false) := by
  intro c hc
  rcases citeFold_mem locale segments 0 {} [] c hc with h | ⟨a2, rfl⟩
  · exact absurd h (List.not_mem_nil c)
  · exact pushCite_flags locale a2

/-- C7, witness: the amended theorem at a concrete one-key segment list. -/
theorem C7_amended_witness :
    ((({ id := some ['k'] } : Citation).composite = true →
      ({ id := some ['k'] } : Citation).suppressAuthor = false ∧
      ({ id := some ['k'] } : Citation).authorOnly = false) ∧
     (({ id := some ['k'] } : Citation).suppressAuthor = true →
      ({ id := some ['k'] } : Citation).authorOnly = false)) :=
  C7_amended "en-US".data [⟨SegmentType.key, 0, 1, ['k']⟩]
    { id := some ['k'] } (by decide)

/-- C8: with `ignoreLinks` set, a closing `]` at bracket depth 1 whose
state is a wiki-link continuation (`inLink`) or is immediately followed by
`(` (a markdown link target) discards the whole group — the scanner state
is dropped and nothing is emitted; concretely, `"[@doe2020](http://x)"`
and `"[[Some Page]]"` produce zero groups. -/
theorem C8 :
    (∀ (prev next : Option Char) (i : Nat) (seek : Option State)
        (out : List (List Segment)) (s : State),
        s.bracketDepth = 1 → (s.inLink = true ∨ next = some '(') →
        block5 prev (some ']') next true i seek out s = ⟨none, none, out⟩) ∧
    getCitationSegments "[@doe2020](http://x)".data true = some [] ∧
    getCitationSegments "[[Some Page]]".data true = some [] := by
  refine ⟨?_, rfl, rfl⟩
  intro prev next i seek out s hbd hlink
  unfold block5
  rw [if_neg (by decide : ¬isTerminusOpt (some ']') = true)]
  simp only []
  rw [if_pos (by decide : ((']' == ']') : Bool) = true)]
  have h2 : ((']' == ']') &&
      (({ s with bracketDepth := s.bracketDepth - 1 } : State).bracketDepth
        == 0)) = true := by
    show ((']' == ']') && ((s.bracketDepth - 1) == 0)) = true
    rw [hbd]
    decide
  rw [if_pos h2]
  have h3 : (true &&
      (({ s with bracketDepth := s.bracketDepth - 1 } : State).inLink ||
        (next == some '('))) = true := by
    show (true && (s.inLink || (next == some '('))) = true
    rcases hlink with h | h
    · rw [h]
      rfl
    · subst h
      cases hil : s.inLink
      · decide
      · decide
  rw [if_pos h3]

/-- C8, witness: the discard branch at a concrete state (depth 1, next is
an opening parenthesis). -/
theorem C8_witness :
    block5 none (some ']') (some '(') true 3 none []
        { newState with bracketDepth := 1 } = ⟨none, none, []⟩ :=
  C8.1 none (some '(') 3 none [] { newState with bracketDepth := 1 } rfl
    (Or.inr rfl)

/-- C9, counterexample: the segment list contains the locatorLabel `xyz`,
which has no mapping under `en-US`, yet the resulting citation's label is
`page` — the accumulator is last-assignment-wins, so a later mapped label
overrides; the claimed "no label field" does not follow from the group
merely *containing* an unmapped locatorLabel. -/
theorem C9_counterexample :
    locatorToTerm "en-US".data "xyz".data = none ∧
    (getCitations [⟨SegmentType.key, 0, 1, ['k']⟩,
        ⟨SegmentType.locatorLabel, 1, 4, "xyz".data⟩,
        ⟨SegmentType.locatorLabel, 4, 6, "p.".data⟩]
      "en-US".data).citations =
      [{ id := some ['k'], label := some "page".data }] := by
  refine ⟨rfl, by decide⟩

/-- C9, amended (label resolution spec-modelled from the missing
locators.ts): for a segment list with no separator and no suppressor
segment, if the *last* locatorLabel segment's value has no mapping for the
locale, the single resulting citation has no label, its id is the last key
segment's value, and its locator is the last locator segment's (non-empty)
value; no error is raised. -/
theorem C9_amended (locale : List Char) (segs : List Segment)
    (hno : ∀ s ∈ segs, s.type ≠ SegmentType.separator ∧
      s.type ≠ SegmentType.suppressor)
    (lab : List Char)
    (hlab : lastValOf SegmentType.locatorLabel segs = some lab)
    (hmap : locatorToTerm locale lab = none) :
    ∃ c, (getCitations segs locale).citations = [c] ∧
      c.label = none ∧
      c.id = lastValOf SegmentType.key segs ∧
      (∀ loc, lastValOf SegmentType.locator segs = some loc → loc ≠ [] →
        c.locator = some loc) := by
  obtain ⟨a2, he, hk, hl, hb⟩ := citeFold_single locale segs 0 {} [] hno
  refine ⟨pushCite locale a2, ?_, ?_, ?_, ?_⟩
  · show citeFold locale segs 0 {} [] = [pushCite locale a2]
    rw [he]
    rfl
  · have hab : a2.label = some lab := by
      rw [hb, hlab]
      rfl
    show (pushCite locale a2).label = none
    unfold pushCite
    simp only []
    rw [hab]
    simp only []
    split
    · rfl
    · rw [hmap]
  · show a2.key = lastValOf SegmentType.key segs
    rw [hk]
    exact opt_or_none _
  · intro loc hloc hne
    have hal : a2.locator = some loc := by
      rw [hl, hloc]
      rfl
    show (pushCite locale a2).locator = some loc
    unfold pushCite
    simp only []
    rw [hal]
    simp only []
    rw [if_neg (fun hh => hne (List.isEmpty_iff.mp hh))]

/-- C9, witness: the amended theorem at a concrete key + unmapped-label +
locator segment list. -/
theorem C9_amended_witness :
    locatorToTerm "en-US".data "xyz".data = none ∧
    (∃ c, (getCitations [⟨SegmentType.key, 0, 3, "doe".data⟩,
        ⟨SegmentType.locatorLabel, 4, 7, "xyz".data⟩,
        ⟨SegmentType.locator, 8, 10, "12".data⟩] "en-US".data).citations =
          [c] ∧
      c.label = none ∧
      c.id = lastValOf SegmentType.key
        [⟨SegmentType.key, 0, 3, "doe".data⟩,
         ⟨SegmentType.locatorLabel, 4, 7, "xyz".data⟩,
         ⟨SegmentType.locator, 8, 10, "12".data⟩] ∧
      (∀ loc, lastValOf SegmentType.locator
          [⟨SegmentType.key, 0, 3, "doe".data⟩,
           ⟨SegmentType.locatorLabel, 4, 7, "xyz".data⟩,
           ⟨SegmentType.locator, 8, 10, "12".data⟩] = some loc → loc ≠ [] →
        c.locator = some loc)) :=
  ⟨rfl, C9_amended "en-US".data
    [⟨SegmentType.key, 0, 3, "doe".data⟩,
     ⟨SegmentType.locatorLabel, 4, 7, "xyz".data⟩,
     ⟨SegmentType.locator, 8, 10, "12".data⟩]
    (by decide) "xyz".data (by decide) rfl⟩

/-- C10: the Aggregator always pushes a final citation, so a non-empty
segment list yields a non-empty citations list; and when the list has no
`key` segment every produced citation's id is unset rather than the group
being rejected. -/
theorem C10 (locale : List Char) (segments : List Segment)
    (h : segments ≠ []) :
    (getCitations segments locale).citations ≠ [] ∧
    ((∀ s ∈ segments, s.type ≠ SegmentType.key) →
      ∀ c ∈ (getCitations segments locale).citations, c.id = none) :=
  ⟨citeFold_ne_nil locale segments 0 {} [],
   fun hno => citeFold_id_none locale segments 0 {} [] hno rfl
     (fun c hc => absurd hc (List.not_mem_nil c))⟩

/-- C10, witness: the theorem at the concrete keyless segment list of a
lone `at` segment. -/
theorem C10_witness :
    ([(⟨SegmentType.atSign, 0, 1, ['@']⟩ : Segment)] ≠ []) ∧
    ((getCitations [⟨SegmentType.atSign, 0, 1, ['@']⟩]
        "en-US".data).citations ≠ [] ∧
     ((∀ s ∈ [(⟨SegmentType.atSign, 0, 1, ['@']⟩ : Segment)],
        s.type ≠ SegmentType.key) →
      ∀ c ∈ (getCitations [⟨SegmentType.atSign, 0, 1, ['@']⟩]
          "en-US".data).citations, c.id = none)) :=
  ⟨by decide,
   C10 "en-US".data [⟨SegmentType.atSign, 0, 1, ['@']⟩] (by decide)⟩
